import Mathlib

/-!
Running moments (`runningvariance.go`) in exact arithmetic.

A shallow embedding of the Go package `runningvariance`: the accumulator `Stat`,
its update `Push`, the merge `Combined` / `Combine` and the read accessors
`Mean`, `Variance`, `StdDev`, `Skewness`, `ExcessKurtosis`.

Modelling decisions.

* `float64` is read in exact arithmetic over a linearly ordered field `K`
  (the reals for the statements that need square roots): a `Float64 K` is
  either a number `fin v` or `undef`, the result of an operation that has no
  real value (IEEE-754 NaN or an infinity).  Division by zero is `undef`, and
  `undef` propagates through every operation, as NaN does.
* `int64` is an integer with explicit two's complement wrap-around (`wrap64`)
  at every addition the source performs on `N`.
* `float64(n)` of an `int64` is the exact cast.
* `math.Sqrt` and `math.Pow` are library functions: the real square root and
  real power are parameters of the accessors that call them, wrapped with the
  domain checks of the Go functions (`Float64.Sqrt`, `Float64.Pow`).
-/

set_option linter.unusedSectionVars false
set_option linter.unusedVariables false

namespace RunningVariance

/-- Go `float64` in exact arithmetic: a number of `K`, or an undefined result. -/
inductive Float64 (K : Type) where
  | fin (v : K)
  | undef
  deriving DecidableEq, Repr

namespace Float64

variable {K : Type} [LinearOrderedField K]

/-- Addition; an undefined operand gives an undefined sum. -/
def add : Float64 K → Float64 K → Float64 K
  | fin x, fin y => fin (x + y)
  | _, _ => undef

/-- Subtraction; an undefined operand gives an undefined difference. -/
def sub : Float64 K → Float64 K → Float64 K
  | fin x, fin y => fin (x - y)
  | _, _ => undef

/-- Multiplication; an undefined operand gives an undefined product. -/
def mul : Float64 K → Float64 K → Float64 K
  | fin x, fin y => fin (x * y)
  | _, _ => undef

/-- Division; a zero divisor or an undefined operand gives an undefined quotient. -/
def div : Float64 K → Float64 K → Float64 K
  | fin x, fin y => if y = 0 then undef else fin (x / y)
  | _, _ => undef

instance : Add (Float64 K) := ⟨add⟩
instance : Sub (Float64 K) := ⟨sub⟩
instance : Mul (Float64 K) := ⟨mul⟩
instance : Div (Float64 K) := ⟨div⟩
instance (n : ℕ) [OfNat K n] : OfNat (Float64 K) n := ⟨fin (OfNat.ofNat n)⟩

/-- Go `math.Sqrt`: undefined below zero, else the square root `sqrt` of the field. -/
def Sqrt (sqrt : K → K) : Float64 K → Float64 K
  | fin x => if x < 0 then undef else fin (sqrt x)
  | undef => undef

/-- Go `math.Pow(x, y)` for a positive exponent `y` that is not an integer (the
only call in the package has `y = 1.5`): undefined for a negative base, else
the power `rpow x y` of the field. -/
def Pow (rpow : K → K → K) : Float64 K → Float64 K → Float64 K
  | fin x, fin y => if x < 0 then undef else fin (rpow x y)
  | _, _ => undef

end Float64

open Float64

variable {K : Type} [LinearOrderedField K]

/-- Two's complement wrap-around of an integer into the `int64` range. -/
def wrap64 (z : ℤ) : ℤ := (z + 2 ^ 63) % 2 ^ 64 - 2 ^ 63

/-- Go conversion `float64(n)` of an `int64`, exact. -/
def float64 (n : ℤ) : Float64 K := fin (n : K)

/-- Stat accumulates the data required for computing the statistics. -/
structure Stat (K : Type) where
  N : ℤ
  M1 : Float64 K
  M2 : Float64 K
  M3 : Float64 K
  M4 : Float64 K
  deriving DecidableEq, Repr

/-- The zero value of `Stat` (Go `var s Stat`). -/
def Stat.zero : Stat K := ⟨0, 0, 0, 0, 0⟩

/-- Push updates the statistics after adding a new value to the series. -/
def Push (s : Stat K) (x : Float64 K) : Stat K :=
  let n1 : Float64 K := float64 s.N
  let N := wrap64 (s.N + 1)
  let n : Float64 K := float64 N
  let delta := x - s.M1
  let delta_n := delta / n
  let delta_n2 := delta_n * delta_n
  let term1 := delta * delta_n * n1
  let M1 := s.M1 + delta_n
  let M4 := s.M4 + (term1 * delta_n2 * (n * n - 3 * n + 3) + 6 * delta_n2 * s.M2 - 4 * delta_n * s.M3)
  let M3 := s.M3 + (term1 * delta_n * (n - 2) - 3 * delta_n * s.M2)
  let M2 := s.M2 + term1
  ⟨N, M1, M2, M3, M4⟩

/-- Mean returns `M1`. -/
def Mean (s : Stat K) : Float64 K := s.M1

/-- Variance: `M2 / (N - 1)` when `N > 1`, else `0`. -/
def Variance (s : Stat K) : Float64 K :=
  if s.N > 1 then s.M2 / (float64 s.N - 1) else 0

/-- StdDev: `math.Sqrt(s.Variance())`. -/
def StdDev (sqrt : K → K) (s : Stat K) : Float64 K :=
  Float64.Sqrt sqrt (Variance s)

/-- Skewness: `math.Sqrt(float64(s.N)) * s.M3 / math.Pow(s.M2, 1.5)`. -/
def Skewness (sqrt : K → K) (rpow : K → K → K) (s : Stat K) : Float64 K :=
  Float64.Sqrt sqrt (float64 s.N) * s.M3 / Float64.Pow rpow s.M2 (fin (3 / 2))

/-- ExcessKurtosis: `float64(s.N)*s.M4/(s.M2*s.M2) - 3.0`. -/
def ExcessKurtosis (s : Stat K) : Float64 K :=
  float64 s.N * s.M4 / (s.M2 * s.M2) - 3

/-- Combined merges two accumulators into a new one. -/
def Combined (a b : Stat K) : Stat K :=
  let N := wrap64 (a.N + b.N)
  let an : Float64 K := float64 a.N
  let bn : Float64 K := float64 b.N
  let cn : Float64 K := float64 N
  let delta := b.M1 - a.M1
  let delta2 := delta * delta
  let delta3 := delta * delta2
  let delta4 := delta2 * delta2
  let M1 := (an * a.M1 + bn * b.M1) / cn
  let M2 := a.M2 + b.M2 + delta2 * an * bn / cn
  let M3 := a.M3 + b.M3 + delta3 * an * bn * (an - bn) / (cn * cn)
  let M3 := M3 + 3 * delta * (an * b.M2 - bn * a.M2) / cn
  let M4 := a.M4 + b.M4 + delta4 * an * bn * (an * an - an * bn + bn * bn) / (cn * cn * cn)
  let M4 := M4 + (6 * delta2 * (an * an * b.M2 + bn * bn * a.M2) / (cn * cn) +
    4 * delta * (an * b.M3 - bn * a.M3) / cn)
  ⟨N, M1, M2, M3, M4⟩

/-- Combine: `*s = Combined(s, b)`; the new value of the receiver. -/
def Combine (s b : Stat K) : Stat K := Combined s b

/-- The loop of the tests: push the values of `xs` in order into the zero `Stat`. -/
def pushAll (xs : List K) : Stat K :=
  xs.foldl (fun s x => Push s (fin x)) Stat.zero

/-- Arithmetic mean of a list, the direct definition `(x1 + ... + xn) / n`. -/
def mean (xs : List K) : K := xs.sum / (xs.length : K)

/-- Sum of the `k`-th powers of the deviations from `c`: `Σ (xi - c)^k`. -/
def centralSum (k : ℕ) (c : K) (xs : List K) : K := (xs.map (fun x => (x - c) ^ k)).sum

/-- Power sums `Σ xi`, `Σ xi^2`, `Σ xi^3`, `Σ xi^4` recovered from a count `n`, a mean `m1`
and sums `m2`, `m3`, `m4` of powers of deviations from the mean (binomial expansion). -/
def powerSums (n m1 m2 m3 m4 : K) : K × K × K × K :=
  (n * m1, m2 + n * m1 ^ 2, m3 + 3 * m1 * m2 + n * m1 ^ 3,
    m4 + 4 * m1 * m3 + 6 * m1 ^ 2 * m2 + n * m1 ^ 4)

/-! ## Arithmetic of `Float64` -/

namespace Float64

@[simp] theorem fin_add_fin (x y : K) : (fin x + fin y : Float64 K) = fin (x + y) := rfl
@[simp] theorem fin_sub_fin (x y : K) : (fin x - fin y : Float64 K) = fin (x - y) := rfl
@[simp] theorem fin_mul_fin (x y : K) : (fin x * fin y : Float64 K) = fin (x * y) := rfl
@[simp] theorem fin_div_fin (x y : K) :
    (fin x / fin y : Float64 K) = if y = 0 then undef else fin (x / y) := rfl
@[simp] theorem undef_add (a : Float64 K) : undef + a = undef := rfl
@[simp] theorem undef_sub (a : Float64 K) : undef - a = undef := rfl
@[simp] theorem undef_mul (a : Float64 K) : undef * a = undef := rfl
@[simp] theorem undef_div (a : Float64 K) : undef / a = undef := rfl
@[simp] theorem add_undef (a : Float64 K) : a + undef = undef := by cases a <;> rfl
@[simp] theorem sub_undef (a : Float64 K) : a - undef = undef := by cases a <;> rfl
@[simp] theorem mul_undef (a : Float64 K) : a * undef = undef := by cases a <;> rfl
@[simp] theorem div_undef (a : Float64 K) : a / undef = undef := by cases a <;> rfl
@[simp] theorem div_fin_zero (a : Float64 K) : a / fin 0 = undef := by
  cases a
  · simp
  · rfl
@[simp] theorem ofNat_eq_fin (n : ℕ) [OfNat K n] :
    (OfNat.ofNat n : Float64 K) = fin (OfNat.ofNat n) := rfl

end Float64

/-! ## Integer wrap-around -/

theorem wrap64_of_range {z : ℤ} (h1 : -2 ^ 63 ≤ z) (h2 : z < 2 ^ 63) : wrap64 z = z := by
  unfold wrap64
  norm_num at h1 h2 ⊢
  omega

/-! ## Sums of powers of deviations -/

theorem length_mul_mean (xs : List K) : (xs.length : K) * mean xs = xs.sum := by
  unfold mean
  rcases xs with _ | ⟨a, t⟩
  · simp
  · have h : ((a :: t).length : K) ≠ 0 := by
      simp only [List.length_cons, Nat.cast_add, Nat.cast_one]
      positivity
    field_simp

theorem centralSum_append (k : ℕ) (c : K) (xs ys : List K) :
    centralSum k c (xs ++ ys) = centralSum k c xs + centralSum k c ys := by
  simp [centralSum]

theorem centralSum_singleton (k : ℕ) (c x : K) : centralSum k c [x] = (x - c) ^ k := by
  simp [centralSum]

theorem centralSum_one (c : K) (xs : List K) :
    centralSum 1 c xs = xs.sum - (xs.length : K) * c := by
  induction xs with
  | nil => simp [centralSum]
  | cons a t ih =>
    simp only [centralSum, List.map_cons, List.sum_cons, List.length_cons, Nat.cast_add,
      Nat.cast_one] at ih ⊢
    rw [ih]; ring

theorem centralSum_one_mean (xs : List K) : centralSum 1 (mean xs) xs = 0 := by
  rw [centralSum_one, length_mul_mean]; ring

theorem centralSum_two_shift (c d : K) (xs : List K) :
    centralSum 2 (c + d) xs
      = centralSum 2 c xs - 2 * d * centralSum 1 c xs + (xs.length : K) * d ^ 2 := by
  induction xs with
  | nil => simp [centralSum]
  | cons a t ih =>
    simp only [centralSum, List.map_cons, List.sum_cons, List.length_cons, Nat.cast_add,
      Nat.cast_one] at ih ⊢
    rw [ih]; ring

theorem centralSum_three_shift (c d : K) (xs : List K) :
    centralSum 3 (c + d) xs
      = centralSum 3 c xs - 3 * d * centralSum 2 c xs + 3 * d ^ 2 * centralSum 1 c xs
        - (xs.length : K) * d ^ 3 := by
  induction xs with
  | nil => simp [centralSum]
  | cons a t ih =>
    simp only [centralSum, List.map_cons, List.sum_cons, List.length_cons, Nat.cast_add,
      Nat.cast_one] at ih ⊢
    rw [ih]; ring

theorem centralSum_four_shift (c d : K) (xs : List K) :
    centralSum 4 (c + d) xs
      = centralSum 4 c xs - 4 * d * centralSum 3 c xs + 6 * d ^ 2 * centralSum 2 c xs
        - 4 * d ^ 3 * centralSum 1 c xs + (xs.length : K) * d ^ 4 := by
  induction xs with
  | nil => simp [centralSum]
  | cons a t ih =>
    simp only [centralSum, List.map_cons, List.sum_cons, List.length_cons, Nat.cast_add,
      Nat.cast_one] at ih ⊢
    rw [ih]; ring

theorem mean_append_singleton (xs : List K) (x : K) :
    mean (xs ++ [x]) = mean xs + (x - mean xs) / ((xs.length : K) + 1) := by
  have hS := length_mul_mean xs
  have hn : ((xs.length : K) + 1) ≠ 0 := by positivity
  have h1 : mean (xs ++ [x]) = (xs.sum + x) / ((xs.length : K) + 1) := by simp [mean]
  rw [h1, ← hS]
  field_simp
  ring

/-! ## `Push` and `Combined` on defined states -/

/-- Push of a number onto a state whose moments are numbers, when the new count is not zero. -/
theorem Push_fin (n : ℤ) (m1 m2 m3 m4 x : K) (h : ((wrap64 (n + 1) : ℤ) : K) ≠ 0) :
    Push ⟨n, fin m1, fin m2, fin m3, fin m4⟩ (fin x) =
      ⟨wrap64 (n + 1),
        fin (m1 + (x - m1) / (wrap64 (n + 1) : K)),
        fin (m2 + (x - m1) * ((x - m1) / (wrap64 (n + 1) : K)) * (n : K)),
        fin (m3 + ((x - m1) * ((x - m1) / (wrap64 (n + 1) : K)) * (n : K)
              * ((x - m1) / (wrap64 (n + 1) : K)) * ((wrap64 (n + 1) : K) - 2)
            - 3 * ((x - m1) / (wrap64 (n + 1) : K)) * m2)),
        fin (m4 + ((x - m1) * ((x - m1) / (wrap64 (n + 1) : K)) * (n : K)
              * (((x - m1) / (wrap64 (n + 1) : K)) * ((x - m1) / (wrap64 (n + 1) : K)))
              * ((wrap64 (n + 1) : K) * (wrap64 (n + 1) : K) - 3 * (wrap64 (n + 1) : K) + 3)
            + 6 * (((x - m1) / (wrap64 (n + 1) : K)) * ((x - m1) / (wrap64 (n + 1) : K))) * m2
            - 4 * ((x - m1) / (wrap64 (n + 1) : K)) * m3))⟩ := by
  simp [Push, float64, h]

theorem pushAll_append_singleton (xs : List K) (x : K) :
    pushAll (xs ++ [x]) = Push (pushAll xs) (fin x) := by
  simp [pushAll, List.foldl_append]

/-- Closed form of the state after pushing a list (of fewer than `2^63` values): the
count, the mean and the sums of powers of deviations from the mean. -/
theorem pushAll_closed (xs : List K) (hlen : xs.length < 2 ^ 63) :
    pushAll xs = ⟨(xs.length : ℤ), fin (mean xs), fin (centralSum 2 (mean xs) xs),
      fin (centralSum 3 (mean xs) xs), fin (centralSum 4 (mean xs) xs)⟩ := by
  induction xs using List.reverseRecOn with
  | nil => simp [pushAll, Stat.zero, mean, centralSum]
  | append_singleton xs x ih =>
    have hlen2 : xs.length + 1 < 2 ^ 63 := by simpa using hlen
    have hw : wrap64 ((xs.length : ℤ) + 1) = (xs.length : ℤ) + 1 := by
      apply wrap64_of_range
      · have : (0 : ℤ) ≤ (xs.length : ℤ) := Int.natCast_nonneg _
        norm_num; omega
      · have : ((xs.length + 1 : ℕ) : ℤ) < ((2 ^ 63 : ℕ) : ℤ) := Int.ofNat_lt.mpr hlen2
        push_cast at this; exact this
    have hn : ((xs.length : K) + 1) ≠ 0 := by positivity
    have hc : (((wrap64 ((xs.length : ℤ) + 1) : ℤ)) : K) = (xs.length : K) + 1 := by
      rw [hw]; push_cast; rfl
    rw [pushAll_append_singleton, ih (by omega), Push_fin _ _ _ _ _ _ (by rw [hc]; exact hn)]
    have hμ := mean_append_singleton xs x
    have h1 := centralSum_one_mean xs
    have e2 := centralSum_two_shift (mean xs) ((x - mean xs) / ((xs.length : K) + 1)) xs
    have e3 := centralSum_three_shift (mean xs) ((x - mean xs) / ((xs.length : K) + 1)) xs
    have e4 := centralSum_four_shift (mean xs) ((x - mean xs) / ((xs.length : K) + 1)) xs
    rw [h1] at e2 e3 e4
    simp only [hw, Int.cast_add, Int.cast_one, Int.cast_natCast, hμ, centralSum_append,
      centralSum_singleton, e2, e3, e4, List.length_append, List.length_singleton]
    rw [Stat.mk.injEq, Float64.fin.injEq, Float64.fin.injEq, Float64.fin.injEq,
      Float64.fin.injEq]
    refine ⟨?_, ?_, ?_, ?_, ?_⟩
    · push_cast; ring
    · ring
    · field_simp
      ring
    · field_simp
      ring
    · field_simp
      ring

/-- Deviations from an arbitrary centre in terms of those from the mean, second power. -/
theorem centralSum_two_about (c : K) (xs : List K) :
    centralSum 2 c xs = centralSum 2 (mean xs) xs + (xs.length : K) * (c - mean xs) ^ 2 := by
  have e := centralSum_two_shift (mean xs) (c - mean xs) xs
  rw [centralSum_one_mean, add_sub_cancel] at e
  rw [e]; ring

/-- Deviations from an arbitrary centre in terms of those from the mean, third power. -/
theorem centralSum_three_about (c : K) (xs : List K) :
    centralSum 3 c xs = centralSum 3 (mean xs) xs
      - 3 * (c - mean xs) * centralSum 2 (mean xs) xs - (xs.length : K) * (c - mean xs) ^ 3 := by
  have e := centralSum_three_shift (mean xs) (c - mean xs) xs
  rw [centralSum_one_mean, add_sub_cancel] at e
  rw [e]; ring

/-- Deviations from an arbitrary centre in terms of those from the mean, fourth power. -/
theorem centralSum_four_about (c : K) (xs : List K) :
    centralSum 4 c xs = centralSum 4 (mean xs) xs
      - 4 * (c - mean xs) * centralSum 3 (mean xs) xs
      + 6 * (c - mean xs) ^ 2 * centralSum 2 (mean xs) xs
      + (xs.length : K) * (c - mean xs) ^ 4 := by
  have e := centralSum_four_shift (mean xs) (c - mean xs) xs
  rw [centralSum_one_mean, add_sub_cancel] at e
  rw [e]; ring

theorem mean_append (xs ys : List K) (h : ((xs.length : K) + (ys.length : K)) ≠ 0) :
    mean (xs ++ ys)
      = ((xs.length : K) * mean xs + (ys.length : K) * mean ys)
        / ((xs.length : K) + (ys.length : K)) := by
  rw [length_mul_mean, length_mul_mean]
  simp [mean]

/-- Combined of two states whose moments are numbers, when the new count is not zero. -/
theorem Combined_fin (n m : ℤ) (a1 a2 a3 a4 b1 b2 b3 b4 : K)
    (h : ((wrap64 (n + m) : ℤ) : K) ≠ 0) :
    Combined ⟨n, fin a1, fin a2, fin a3, fin a4⟩ ⟨m, fin b1, fin b2, fin b3, fin b4⟩ =
      ⟨wrap64 (n + m),
        fin (((n : K) * a1 + (m : K) * b1) / (wrap64 (n + m) : K)),
        fin (a2 + b2 + (b1 - a1) * (b1 - a1) * (n : K) * (m : K) / (wrap64 (n + m) : K)),
        fin (a3 + b3 + (b1 - a1) * ((b1 - a1) * (b1 - a1)) * (n : K) * (m : K)
              * ((n : K) - (m : K)) / ((wrap64 (n + m) : K) * (wrap64 (n + m) : K))
            + 3 * (b1 - a1) * ((n : K) * b2 - (m : K) * a2) / (wrap64 (n + m) : K)),
        fin (a4 + b4 + (b1 - a1) * (b1 - a1) * ((b1 - a1) * (b1 - a1)) * (n : K) * (m : K)
              * ((n : K) * (n : K) - (n : K) * (m : K) + (m : K) * (m : K))
              / ((wrap64 (n + m) : K) * (wrap64 (n + m) : K) * (wrap64 (n + m) : K))
            + (6 * ((b1 - a1) * (b1 - a1)) * ((n : K) * (n : K) * b2 + (m : K) * (m : K) * a2)
                / ((wrap64 (n + m) : K) * (wrap64 (n + m) : K))
              + 4 * (b1 - a1) * ((n : K) * b3 - (m : K) * a3) / (wrap64 (n + m) : K)))⟩ := by
  simp [Combined, float64, h]

/-- Combined of two states with an undefined divisor: every moment is undefined. -/
theorem Combined_zero_count (a b : Stat K) (h : ((wrap64 (a.N + b.N) : ℤ) : K) = 0) :
    Combined a b = ⟨wrap64 (a.N + b.N), undef, undef, undef, undef⟩ := by
  simp [Combined, float64, h]

/-- Closed form of the merge of the states of two lists: the state of the concatenation. -/
theorem Combined_pushAll (xs ys : List K) (hx : xs ≠ []) (hlen : (xs ++ ys).length < 2 ^ 63) :
    Combined (pushAll xs) (pushAll ys) = pushAll (xs ++ ys) := by
  have hl : xs.length + ys.length < 2 ^ 63 := by simpa using hlen
  have hxpos : 0 < xs.length := List.length_pos.mpr hx
  have hw : wrap64 ((xs.length : ℤ) + (ys.length : ℤ)) = (xs.length : ℤ) + (ys.length : ℤ) := by
    apply wrap64_of_range
    · have h1 : (0 : ℤ) ≤ (xs.length : ℤ) := Int.natCast_nonneg _
      have h2 : (0 : ℤ) ≤ (ys.length : ℤ) := Int.natCast_nonneg _
      norm_num; omega
    · have : ((xs.length + ys.length : ℕ) : ℤ) < ((2 ^ 63 : ℕ) : ℤ) := Int.ofNat_lt.mpr hl
      push_cast at this; exact this
  have hn : (0 : K) < (xs.length : K) := by exact_mod_cast hxpos
  have hm : (0 : K) ≤ (ys.length : K) := Nat.cast_nonneg _
  have hnm : ((xs.length : K) + (ys.length : K)) ≠ 0 := by positivity
  have hc : (((wrap64 ((xs.length : ℤ) + (ys.length : ℤ)) : ℤ)) : K)
      = (xs.length : K) + (ys.length : K) := by
    rw [hw]; push_cast; rfl
  rw [pushAll_closed xs (by omega), pushAll_closed ys (by omega), pushAll_closed _ hlen,
    Combined_fin _ _ _ _ _ _ _ _ _ _ (by rw [hc]; exact hnm)]
  have e2a := centralSum_two_about (mean (xs ++ ys)) xs
  have e2b := centralSum_two_about (mean (xs ++ ys)) ys
  have e3a := centralSum_three_about (mean (xs ++ ys)) xs
  have e3b := centralSum_three_about (mean (xs ++ ys)) ys
  have e4a := centralSum_four_about (mean (xs ++ ys)) xs
  have e4b := centralSum_four_about (mean (xs ++ ys)) ys
  simp only [hw, Int.cast_add, Int.cast_natCast, centralSum_append, e2a, e2b, e3a, e3b, e4a,
    e4b, List.length_append, Nat.cast_add]
  simp only [mean_append xs ys hnm]
  clear e2a e2b e3a e3b e4a e4b
  rw [Stat.mk.injEq, Float64.fin.injEq, Float64.fin.injEq, Float64.fin.injEq,
    Float64.fin.injEq]
  generalize centralSum 2 (mean xs) xs = A2
  generalize centralSum 3 (mean xs) xs = A3
  generalize centralSum 4 (mean xs) xs = A4
  generalize centralSum 2 (mean ys) ys = B2
  generalize centralSum 3 (mean ys) ys = B3
  generalize centralSum 4 (mean ys) ys = B4
  generalize mean xs = p at *
  generalize mean ys = q at *
  generalize (xs.length : K) = n at *
  generalize (ys.length : K) = m at *
  refine ⟨rfl, rfl, ?_, ?_, ?_⟩
  · field_simp
    ring
  · field_simp
    ring
  · field_simp
    ring

/-- The power sums determine the mean and the central sums when the count is not zero. -/
theorem powerSums_inj (n a1 a2 a3 a4 b1 b2 b3 b4 : K) (hn : n ≠ 0)
    (h : powerSums n a1 a2 a3 a4 = powerSums n b1 b2 b3 b4) :
    a1 = b1 ∧ a2 = b2 ∧ a3 = b3 ∧ a4 = b4 := by
  simp only [powerSums, Prod.mk.injEq] at h
  obtain ⟨h1, h2, h3, h4⟩ := h
  have e1 : a1 = b1 := mul_left_cancel₀ hn h1
  subst e1
  have e2 : a2 = b2 := by linarith
  subst e2
  have e3 : a3 = b3 := by linarith
  subst e3
  have e4 : a4 = b4 := by linarith
  exact ⟨rfl, rfl, rfl, e4⟩

/-- Combined adds the power sums: on states whose moments are numbers and whose counts add
up without wrap-around to a non-zero count, the result has number moments, and its power
sums are the sums of the power sums of the arguments. -/
theorem Combined_powerSums (n m : ℤ) (a1 a2 a3 a4 b1 b2 b3 b4 : K)
    (hw : wrap64 (n + m) = n + m) (h : (n : K) + (m : K) ≠ 0) :
    ∃ c1 c2 c3 c4 : K,
      Combined ⟨n, fin a1, fin a2, fin a3, fin a4⟩ ⟨m, fin b1, fin b2, fin b3, fin b4⟩
        = ⟨n + m, fin c1, fin c2, fin c3, fin c4⟩ ∧
      powerSums ((n : K) + (m : K)) c1 c2 c3 c4
        = powerSums (n : K) a1 a2 a3 a4 + powerSums (m : K) b1 b2 b3 b4 := by
  have hc : (((wrap64 (n + m) : ℤ)) : K) = (n : K) + (m : K) := by
    rw [hw]; push_cast; rfl
  have hC := Combined_fin n m a1 a2 a3 a4 b1 b2 b3 b4 (by rw [hc]; exact h)
  rw [hw] at hC
  refine ⟨_, _, _, _, hC, ?_⟩
  simp only [Int.cast_add, powerSums, Prod.mk_add_mk, Prod.mk.injEq]
  clear hC hc
  generalize (n : K) = p at *
  generalize (m : K) = q at *
  refine ⟨?_, ?_, ?_, ?_⟩
  · field_simp
  · field_simp
    ring
  · field_simp
    ring
  · field_simp
    ring

theorem centralSum_two_nonneg (c : K) (xs : List K) : 0 ≤ centralSum 2 c xs := by
  unfold centralSum
  apply List.sum_nonneg
  intro y hy
  obtain ⟨x, _, rfl⟩ := List.mem_map.mp hy
  positivity

/-- A vanishing sum of squared deviations from `c` forces every value to be `c`. -/
theorem eq_of_centralSum_two_eq_zero (c : K) (xs : List K) (h : centralSum 2 c xs = 0) :
    ∀ x ∈ xs, x = c := by
  induction xs with
  | nil => intro x hx; simp at hx
  | cons a t ih =>
    have hsplit : centralSum 2 c (a :: t) = (a - c) ^ 2 + centralSum 2 c t := by
      simp [centralSum]
    rw [hsplit] at h
    have h1 : 0 ≤ (a - c) ^ 2 := by positivity
    have h2 := centralSum_two_nonneg c t
    have ha : (a - c) ^ 2 = 0 := by linarith
    have ht : centralSum 2 c t = 0 := by linarith
    intro x hx
    rcases List.mem_cons.mp hx with rfl | hx
    · have := pow_eq_zero_iff (two_ne_zero) |>.mp ha
      linarith
    · exact ih ht x hx

/-- Values that are not all equal have a positive sum of squared deviations from the mean. -/
theorem centralSum_two_pos (xs : List K) (hne : ∃ x ∈ xs, ∃ y ∈ xs, x ≠ y) :
    0 < centralSum 2 (mean xs) xs := by
  rcases lt_or_eq_of_le (centralSum_two_nonneg (mean xs) xs) with h | h
  · exact h
  · exfalso
    obtain ⟨x, hx, y, hy, hxy⟩ := hne
    have hall := eq_of_centralSum_two_eq_zero (mean xs) xs h.symm
    exact hxy ((hall x hx).trans (hall y hy).symm)

/-! ## The claims -/

/-- C1: for every non-empty list of values (a Go sequence, fewer than `2^63` of them),
pushing them in order into the zero-valued Stat yields `N = n`, `M1 = (x1+...+xn)/n` and
`M2 = Σ (xi - M1)^2`. -/
theorem C1_push_count_mean_m2 (xs : List K) (hne : xs ≠ []) (hlen : xs.length < 2 ^ 63) :
    (pushAll xs).N = (xs.length : ℤ) ∧
    (pushAll xs).M1 = fin (xs.sum / (xs.length : K)) ∧
    (pushAll xs).M2 = fin ((xs.map (fun x => (x - xs.sum / (xs.length : K)) ^ 2)).sum) := by
  rw [pushAll_closed xs hlen]
  exact ⟨rfl, rfl, rfl⟩

/-- Witness of C1 at the values 0, 2, 4. -/
theorem C1_push_count_mean_m2_witness :
    ([0, 2, 4] : List ℚ) ≠ [] ∧ ([0, 2, 4] : List ℚ).length < 2 ^ 63 ∧
    ((pushAll ([0, 2, 4] : List ℚ)).N = (([0, 2, 4] : List ℚ).length : ℤ) ∧
    (pushAll ([0, 2, 4] : List ℚ)).M1
      = fin (([0, 2, 4] : List ℚ).sum / (([0, 2, 4] : List ℚ).length : ℚ)) ∧
    (pushAll ([0, 2, 4] : List ℚ)).M2
      = fin ((([0, 2, 4] : List ℚ).map
          (fun x => (x - ([0, 2, 4] : List ℚ).sum / (([0, 2, 4] : List ℚ).length : ℚ)) ^ 2)).sum)) :=
  ⟨by simp, by norm_num, C1_push_count_mean_m2 [0, 2, 4] (by simp) (by norm_num)⟩

/-- C2: for every non-empty list of values (fewer than `2^63` of them), pushing them in order
into the zero-valued Stat yields `M3 = Σ (xi - mean)^3` and `M4 = Σ (xi - mean)^4`, where
`mean = (x1+...+xn)/n`. -/
theorem C2_push_m3_m4 (xs : List K) (hne : xs ≠ []) (hlen : xs.length < 2 ^ 63) :
    (pushAll xs).M3 = fin ((xs.map (fun x => (x - xs.sum / (xs.length : K)) ^ 3)).sum) ∧
    (pushAll xs).M4 = fin ((xs.map (fun x => (x - xs.sum / (xs.length : K)) ^ 4)).sum) := by
  rw [pushAll_closed xs hlen]
  exact ⟨rfl, rfl⟩

/-- Witness of C2 at the values 0, 2, 4. -/
theorem C2_push_m3_m4_witness :
    ([0, 2, 4] : List ℚ) ≠ [] ∧ ([0, 2, 4] : List ℚ).length < 2 ^ 63 ∧
    ((pushAll ([0, 2, 4] : List ℚ)).M3
      = fin ((([0, 2, 4] : List ℚ).map
          (fun x => (x - ([0, 2, 4] : List ℚ).sum / (([0, 2, 4] : List ℚ).length : ℚ)) ^ 3)).sum) ∧
    (pushAll ([0, 2, 4] : List ℚ)).M4
      = fin ((([0, 2, 4] : List ℚ).map
          (fun x => (x - ([0, 2, 4] : List ℚ).sum / (([0, 2, 4] : List ℚ).length : ℚ)) ^ 4)).sum)) :=
  ⟨by simp, by norm_num, C2_push_m3_m4 [0, 2, 4] (by simp) (by norm_num)⟩

/-- C3: for non-empty lists `xs` and `ys` (together fewer than `2^63` values), Combined of
the Stat of `xs` and the Stat of `ys` equals, field by field, the Stat obtained by pushing
`xs` followed by `ys` into one empty Stat; Combine leaves the same state in its receiver. -/
theorem C3_Combined_eq_push_concat (xs ys : List K) (hx : xs ≠ []) (hy : ys ≠ [])
    (hlen : (xs ++ ys).length < 2 ^ 63) :
    Combined (pushAll xs) (pushAll ys) = pushAll (xs ++ ys) ∧
    Combine (pushAll xs) (pushAll ys) = pushAll (xs ++ ys) :=
  ⟨Combined_pushAll xs ys hx hlen, Combined_pushAll xs ys hx hlen⟩

/-- Witness of C3 at the lists of the merge test, 2, 10, 103 and 6, 50, 100. -/
theorem C3_Combined_eq_push_concat_witness :
    ([2, 10, 103] : List ℚ) ≠ [] ∧ ([6, 50, 100] : List ℚ) ≠ [] ∧
    (([2, 10, 103] : List ℚ) ++ [6, 50, 100]).length < 2 ^ 63 ∧
    (Combined (pushAll ([2, 10, 103] : List ℚ)) (pushAll [6, 50, 100])
      = pushAll ([2, 10, 103] ++ [6, 50, 100]) ∧
    Combine (pushAll ([2, 10, 103] : List ℚ)) (pushAll [6, 50, 100])
      = pushAll ([2, 10, 103] ++ [6, 50, 100])) :=
  ⟨by simp, by simp, by norm_num,
    C3_Combined_eq_push_concat [2, 10, 103] [6, 50, 100] (by simp) (by simp) (by norm_num)⟩

/-- C4: for every Stat `a` with a positive (int64) count and arbitrary real moment fields,
and the empty Stat `e`, `Combined(a, e) = a` and `Combined(e, a) = a`, field by field. -/
theorem C4_Combined_empty_noop (n : ℤ) (m1 m2 m3 m4 : K) (hpos : 0 < n) (hrange : n < 2 ^ 63) :
    Combined ⟨n, fin m1, fin m2, fin m3, fin m4⟩ Stat.zero
      = ⟨n, fin m1, fin m2, fin m3, fin m4⟩ ∧
    Combined Stat.zero ⟨n, fin m1, fin m2, fin m3, fin m4⟩
      = ⟨n, fin m1, fin m2, fin m3, fin m4⟩ := by
  have hz : (Stat.zero : Stat K) = ⟨0, fin 0, fin 0, fin 0, fin 0⟩ := rfl
  have hw : wrap64 n = n := wrap64_of_range (by norm_num; omega) hrange
  have hn : (n : K) ≠ 0 := by
    have : (0 : K) < (n : K) := by exact_mod_cast hpos
    exact ne_of_gt this
  have hw1 : wrap64 (n + 0) = n := by rw [add_zero, hw]
  have hw2 : wrap64 (0 + n) = n := by rw [zero_add, hw]
  rw [hz]
  constructor
  · rw [Combined_fin _ _ _ _ _ _ _ _ _ _ (by rw [hw1]; exact hn), hw1, Stat.mk.injEq,
      Float64.fin.injEq, Float64.fin.injEq, Float64.fin.injEq, Float64.fin.injEq]
    refine ⟨rfl, ?_, ?_, ?_, ?_⟩
    · field_simp
    · simp
    · simp
    · simp
  · rw [Combined_fin _ _ _ _ _ _ _ _ _ _ (by rw [hw2]; exact hn), hw2, Stat.mk.injEq,
      Float64.fin.injEq, Float64.fin.injEq, Float64.fin.injEq, Float64.fin.injEq]
    refine ⟨rfl, ?_, ?_, ?_, ?_⟩
    · field_simp
    · simp
    · simp
    · simp

/-- Witness of C4 at the state reached by pushing 0, 2, 4. -/
theorem C4_Combined_empty_noop_witness :
    (0 : ℤ) < 3 ∧ (3 : ℤ) < 2 ^ 63 ∧
    (Combined (⟨3, fin 2, fin 8, fin 0, fin 32⟩ : Stat ℚ) Stat.zero
      = ⟨3, fin 2, fin 8, fin 0, fin 32⟩ ∧
    Combined Stat.zero (⟨3, fin 2, fin 8, fin 0, fin 32⟩ : Stat ℚ)
      = ⟨3, fin 2, fin 8, fin 0, fin 32⟩) :=
  ⟨by norm_num, by norm_num, C4_Combined_empty_noop 3 2 8 0 32 (by norm_num) (by norm_num)⟩

/-- C5, as stated, fails: Combined of two empty Stats is not the empty state. -/
theorem C5_Combined_empty_empty_counterexample :
    Combined (Stat.zero : Stat ℚ) Stat.zero ≠ Stat.zero := by
  decide

/-- C5, amended: Combined of two empty Stats has `N = 0` and all four moments undefined:
each is a quotient by `cn = 0`, which the code does not guard. -/
theorem C5_Combined_empty_empty_undef :
    Combined (Stat.zero : Stat K) Stat.zero = ⟨0, undef, undef, undef, undef⟩ := by
  have hw : wrap64 (0 + 0) = 0 := by norm_num [wrap64]
  have h := Combined_zero_count (Stat.zero : Stat K) Stat.zero
    (by simp only [Stat.zero, hw, Int.cast_zero])
  rw [h]
  simp only [Stat.zero, hw]

/-- C6: Combined is commutative, field by field, on all Stats. -/
theorem C6_Combined_comm (a b : Stat K) : Combined a b = Combined b a := by
  obtain ⟨n, a1, a2, a3, a4⟩ := a
  obtain ⟨m, b1, b2, b3, b4⟩ := b
  have hc : wrap64 (m + n) = wrap64 (n + m) := by rw [add_comm]
  by_cases h : ((wrap64 (n + m) : ℤ) : K) = 0
  · rw [Combined_zero_count _ _ h, Combined_zero_count _ _ (by simpa [hc] using h)]
    simp [hc]
  · simp only [Combined, hc, Stat.mk.injEq, true_and]
    refine ⟨?_, ?_, ?_, ?_⟩
    · cases a1 <;> cases b1 <;> simp [float64, h]
      ring
    · cases a1 <;> cases b1 <;> try (simp; done)
      cases a2 <;> cases b2 <;> simp [float64, h]
      ring
    · cases a1 <;> cases b1 <;> try (simp; done)
      cases a2 <;> cases b2 <;> try (simp; done)
      cases a3 <;> cases b3 <;> simp [float64, h]
      ring
    · cases a1 <;> cases b1 <;> try (simp; done)
      cases a2 <;> cases b2 <;> try (simp; done)
      cases a3 <;> cases b3 <;> try (simp; done)
      cases a4 <;> cases b4 <;> simp [float64, h]
      ring

/-- C7, as stated, fails: with positive counts whose sum leaves the int64 range the count
of a merge wraps around, and the two merge orders give different states.  At three Stats of
count `2^62` with means 0, 0 and 1 (every number involved is a power of two, so nothing is
rounded in binary64 either) one order gives `M2 = 2^63` and the other `M2 = 0`. -/
theorem C7_Combined_assoc_counterexample :
    (0 : ℤ) < 2 ^ 62 ∧
    (Combined (Combined (⟨2 ^ 62, fin 0, fin 0, fin 0, fin 0⟩ : Stat ℚ)
        ⟨2 ^ 62, fin 0, fin 0, fin 0, fin 0⟩) ⟨2 ^ 62, fin 1, fin 0, fin 0, fin 0⟩).M2
      = fin (2 ^ 63) ∧
    (Combined (⟨2 ^ 62, fin 0, fin 0, fin 0, fin 0⟩ : Stat ℚ)
        (Combined ⟨2 ^ 62, fin 0, fin 0, fin 0, fin 0⟩ ⟨2 ^ 62, fin 1, fin 0, fin 0, fin 0⟩)).M2
      = fin 0 ∧
    Combined (Combined (⟨2 ^ 62, fin 0, fin 0, fin 0, fin 0⟩ : Stat ℚ)
        ⟨2 ^ 62, fin 0, fin 0, fin 0, fin 0⟩) ⟨2 ^ 62, fin 1, fin 0, fin 0, fin 0⟩
      ≠ Combined (⟨2 ^ 62, fin 0, fin 0, fin 0, fin 0⟩ : Stat ℚ)
        (Combined ⟨2 ^ 62, fin 0, fin 0, fin 0, fin 0⟩ ⟨2 ^ 62, fin 1, fin 0, fin 0, fin 0⟩) := by
  have hl : (Combined (Combined (⟨2 ^ 62, fin 0, fin 0, fin 0, fin 0⟩ : Stat ℚ)
      ⟨2 ^ 62, fin 0, fin 0, fin 0, fin 0⟩) ⟨2 ^ 62, fin 1, fin 0, fin 0, fin 0⟩).M2
      = fin (2 ^ 63) := by
    norm_num [Combined, float64, wrap64]
  have hr : (Combined (⟨2 ^ 62, fin 0, fin 0, fin 0, fin 0⟩ : Stat ℚ)
      (Combined ⟨2 ^ 62, fin 0, fin 0, fin 0, fin 0⟩ ⟨2 ^ 62, fin 1, fin 0, fin 0, fin 0⟩)).M2
      = fin 0 := by
    norm_num [Combined, float64, wrap64]
  refine ⟨by norm_num, hl, hr, ?_⟩
  intro h
  have h2 := congrArg Stat.M2 h
  rw [hl, hr, Float64.fin.injEq] at h2
  norm_num at h2

/-- C7, amended: Combined is associative on Stats with real moment fields and positive
counts whose total stays in the int64 range (`a.N + b.N + c.N < 2^63`):
`Combined(Combined(a, b), c) = Combined(a, Combined(b, c))`, field by field. -/
theorem C7_Combined_assoc (n m k : ℤ) (a1 a2 a3 a4 b1 b2 b3 b4 c1 c2 c3 c4 : K)
    (hn : 0 < n) (hm : 0 < m) (hk : 0 < k) (hsum : n + m + k < 2 ^ 63) :
    Combined (Combined ⟨n, fin a1, fin a2, fin a3, fin a4⟩ ⟨m, fin b1, fin b2, fin b3, fin b4⟩)
        ⟨k, fin c1, fin c2, fin c3, fin c4⟩
      = Combined ⟨n, fin a1, fin a2, fin a3, fin a4⟩
        (Combined ⟨m, fin b1, fin b2, fin b3, fin b4⟩ ⟨k, fin c1, fin c2, fin c3, fin c4⟩) := by
  have w1 : wrap64 (n + m) = n + m := wrap64_of_range (by norm_num; omega) (by omega)
  have w2 : wrap64 (m + k) = m + k := wrap64_of_range (by norm_num; omega) (by omega)
  have w3 : wrap64 (n + m + k) = n + m + k := wrap64_of_range (by norm_num; omega) (by omega)
  have w4 : wrap64 (n + (m + k)) = n + (m + k) := by rw [← add_assoc, w3]
  have pn : (0 : K) < (n : K) := by exact_mod_cast hn
  have pm : (0 : K) < (m : K) := by exact_mod_cast hm
  have pk : (0 : K) < (k : K) := by exact_mod_cast hk
  obtain ⟨u1, u2, u3, u4, hu, su⟩ :=
    Combined_powerSums n m a1 a2 a3 a4 b1 b2 b3 b4 w1 (by positivity)
  obtain ⟨v1, v2, v3, v4, hv, sv⟩ :=
    Combined_powerSums m k b1 b2 b3 b4 c1 c2 c3 c4 w2 (by positivity)
  obtain ⟨l1, l2, l3, l4, hl, sl⟩ :=
    Combined_powerSums (n + m) k u1 u2 u3 u4 c1 c2 c3 c4 w3 (by push_cast; positivity)
  obtain ⟨r1, r2, r3, r4, hr, sr⟩ :=
    Combined_powerSums n (m + k) a1 a2 a3 a4 v1 v2 v3 v4 w4 (by push_cast; positivity)
  rw [hu, hv, hl, hr]
  have e : powerSums ((n : K) + (m : K) + (k : K)) l1 l2 l3 l4
      = powerSums ((n : K) + (m : K) + (k : K)) r1 r2 r3 r4 := by
    have sl2 := sl
    have sr2 := sr
    push_cast at sl2 sr2
    rw [su] at sl2
    rw [sv, ← add_assoc, ← add_assoc] at sr2
    rw [sl2, sr2]
  obtain ⟨e1, e2, e3, e4⟩ := powerSums_inj _ _ _ _ _ _ _ _ _ (by positivity) e
  rw [e1, e2, e3, e4, add_assoc]

/-- Witness of C7 at the states of the one-element lists 0, 2 and 4. -/
theorem C7_Combined_assoc_witness :
    (0 : ℤ) < 1 ∧ (1 : ℤ) + 1 + 1 < 2 ^ 63 ∧
    Combined (Combined (⟨1, fin 0, fin 0, fin 0, fin 0⟩ : Stat ℚ)
        ⟨1, fin 2, fin 0, fin 0, fin 0⟩) ⟨1, fin 4, fin 0, fin 0, fin 0⟩
      = Combined (⟨1, fin 0, fin 0, fin 0, fin 0⟩ : Stat ℚ)
        (Combined ⟨1, fin 2, fin 0, fin 0, fin 0⟩ ⟨1, fin 4, fin 0, fin 0, fin 0⟩) :=
  ⟨by norm_num, by norm_num,
    C7_Combined_assoc 1 1 1 0 0 0 0 2 0 0 0 4 0 0 0 (by norm_num) (by norm_num) (by norm_num)
      (by norm_num)⟩

/-- C8: for every list `xs` of `n` values (fewer than `2^63`) pushed into an empty Stat:
if `n >= 2`, `Variance()` is the Bessel-corrected sample variance `Σ (xi - mean)^2 / (n - 1)`
and `StdDev()` is its non-negative square root; if `n <= 1`, `Variance() = 0` and
`StdDev() = 0`. -/
theorem C8_variance_stddev (xs : List ℝ) (hlen : xs.length < 2 ^ 63) :
    (2 ≤ xs.length →
      Variance (pushAll xs)
        = fin ((xs.map (fun x => (x - xs.sum / (xs.length : ℝ)) ^ 2)).sum
            / ((xs.length : ℝ) - 1)) ∧
      ∃ r : ℝ, StdDev Real.sqrt (pushAll xs) = fin r ∧ 0 ≤ r ∧
        r * r = (xs.map (fun x => (x - xs.sum / (xs.length : ℝ)) ^ 2)).sum
            / ((xs.length : ℝ) - 1)) ∧
    (xs.length ≤ 1 →
      Variance (pushAll xs) = fin 0 ∧ StdDev Real.sqrt (pushAll xs) = fin 0) := by
  rw [pushAll_closed xs hlen]
  constructor
  · intro h2
    have hN : ((xs.length : ℤ)) > 1 := by omega
    have hn1 : (1 : ℝ) < (xs.length : ℝ) := by exact_mod_cast (show 1 < xs.length by omega)
    have hd : (xs.length : ℝ) - 1 ≠ 0 := by linarith
    have hv : Variance (⟨(xs.length : ℤ), fin (mean xs), fin (centralSum 2 (mean xs) xs),
        fin (centralSum 3 (mean xs) xs), fin (centralSum 4 (mean xs) xs)⟩ : Stat ℝ)
        = fin (centralSum 2 (mean xs) xs / ((xs.length : ℝ) - 1)) := by
      simp [Variance, float64, hN, hd]
    have hnn : 0 ≤ centralSum 2 (mean xs) xs / ((xs.length : ℝ) - 1) :=
      div_nonneg (centralSum_two_nonneg _ _) (by linarith)
    refine ⟨hv, Real.sqrt (centralSum 2 (mean xs) xs / ((xs.length : ℝ) - 1)), ?_,
      Real.sqrt_nonneg _, Real.mul_self_sqrt hnn⟩
    rw [StdDev, hv]
    simp [Float64.Sqrt, not_lt.mpr hnn]
  · intro h1
    have hN : ¬ ((xs.length : ℤ)) > 1 := by omega
    have hv : Variance (⟨(xs.length : ℤ), fin (mean xs), fin (centralSum 2 (mean xs) xs),
        fin (centralSum 3 (mean xs) xs), fin (centralSum 4 (mean xs) xs)⟩ : Stat ℝ)
        = fin 0 := by
      simp [Variance, hN]
    refine ⟨hv, ?_⟩
    rw [StdDev, hv]
    simp [Float64.Sqrt]

/-- Witness of C8 at the values 0, 2, 4 (two or more values) and at the single value 7. -/
theorem C8_variance_stddev_witness :
    ([0, 2, 4] : List ℝ).length < 2 ^ 63 ∧ 2 ≤ ([0, 2, 4] : List ℝ).length ∧
    (Variance (pushAll ([0, 2, 4] : List ℝ))
        = fin ((([0, 2, 4] : List ℝ).map
            (fun x => (x - ([0, 2, 4] : List ℝ).sum / (([0, 2, 4] : List ℝ).length : ℝ)) ^ 2)).sum
            / ((([0, 2, 4] : List ℝ).length : ℝ) - 1)) ∧
      ∃ r : ℝ, StdDev Real.sqrt (pushAll ([0, 2, 4] : List ℝ)) = fin r ∧ 0 ≤ r ∧
        r * r = (([0, 2, 4] : List ℝ).map
            (fun x => (x - ([0, 2, 4] : List ℝ).sum / (([0, 2, 4] : List ℝ).length : ℝ)) ^ 2)).sum
            / ((([0, 2, 4] : List ℝ).length : ℝ) - 1)) ∧
    ([7] : List ℝ).length ≤ 1 ∧
    (Variance (pushAll ([7] : List ℝ)) = fin 0 ∧
      StdDev Real.sqrt (pushAll ([7] : List ℝ)) = fin 0) :=
  ⟨by norm_num, by norm_num, (C8_variance_stddev [0, 2, 4] (by norm_num)).1 (by norm_num),
    by norm_num, (C8_variance_stddev [7] (by norm_num)).2 (by norm_num)⟩

/-- C9: for every list of `n >= 2` values (fewer than `2^63`) that are not all equal, pushed
into an empty Stat, `ExcessKurtosis()` is the kurtosis minus 3: `m4 / m2^2 - 3` with
`mk = (1/n) Σ (xi - mean)^k`. -/
theorem C9_excess_kurtosis (xs : List K) (h2 : 2 ≤ xs.length) (hlen : xs.length < 2 ^ 63)
    (hne : ∃ x ∈ xs, ∃ y ∈ xs, x ≠ y) :
    ExcessKurtosis (pushAll xs)
      = fin ((1 / (xs.length : K) * (xs.map (fun x => (x - xs.sum / (xs.length : K)) ^ 4)).sum)
          / (1 / (xs.length : K)
              * (xs.map (fun x => (x - xs.sum / (xs.length : K)) ^ 2)).sum) ^ 2 - 3) := by
  rw [pushAll_closed xs hlen]
  have hpos := centralSum_two_pos xs hne
  have hS : centralSum 2 (mean xs) xs ≠ 0 := ne_of_gt hpos
  have hn : (xs.length : K) ≠ 0 := by
    have : (0 : K) < (xs.length : K) := by exact_mod_cast (show 0 < xs.length by omega)
    exact ne_of_gt this
  have e : ExcessKurtosis (⟨(xs.length : ℤ), fin (mean xs), fin (centralSum 2 (mean xs) xs),
      fin (centralSum 3 (mean xs) xs), fin (centralSum 4 (mean xs) xs)⟩ : Stat K)
      = fin ((xs.length : K) * centralSum 4 (mean xs) xs
          / (centralSum 2 (mean xs) xs * centralSum 2 (mean xs) xs) - 3) := by
    simp [ExcessKurtosis, float64, hS]
  rw [e, Float64.fin.injEq]
  change _ = (1 / (xs.length : K) * centralSum 4 (mean xs) xs)
      / (1 / (xs.length : K) * centralSum 2 (mean xs) xs) ^ 2 - 3
  field_simp
  ring

/-- Witness of C9 at the values 0, 2, 4. -/
theorem C9_excess_kurtosis_witness :
    2 ≤ ([0, 2, 4] : List ℚ).length ∧ ([0, 2, 4] : List ℚ).length < 2 ^ 63 ∧
    (∃ x ∈ ([0, 2, 4] : List ℚ), ∃ y ∈ ([0, 2, 4] : List ℚ), x ≠ y) ∧
    ExcessKurtosis (pushAll ([0, 2, 4] : List ℚ))
      = fin ((1 / (([0, 2, 4] : List ℚ).length : ℚ) * (([0, 2, 4] : List ℚ).map
            (fun x => (x - ([0, 2, 4] : List ℚ).sum / (([0, 2, 4] : List ℚ).length : ℚ)) ^ 4)).sum)
          / (1 / (([0, 2, 4] : List ℚ).length : ℚ) * (([0, 2, 4] : List ℚ).map
            (fun x => (x - ([0, 2, 4] : List ℚ).sum / (([0, 2, 4] : List ℚ).length : ℚ)) ^ 2)).sum)
              ^ 2 - 3) :=
  ⟨by norm_num, by norm_num, ⟨0, by simp, 2, by simp, by norm_num⟩,
    C9_excess_kurtosis [0, 2, 4] (by norm_num) (by norm_num)
      ⟨0, by simp, 2, by simp, by norm_num⟩⟩

/-- C10: for every list of `n >= 2` real values (fewer than `2^63`) that are not all equal,
pushed into an empty Stat, `Skewness()` is the moment coefficient of skewness
`m3 / m2^(3/2)` with `mk = (1/n) Σ (xi - mean)^k`. -/
theorem C10_skewness (xs : List ℝ) (h2 : 2 ≤ xs.length) (hlen : xs.length < 2 ^ 63)
    (hne : ∃ x ∈ xs, ∃ y ∈ xs, x ≠ y) :
    Skewness Real.sqrt Real.rpow (pushAll xs)
      = fin ((1 / (xs.length : ℝ) * (xs.map (fun x => (x - xs.sum / (xs.length : ℝ)) ^ 3)).sum)
          / Real.rpow (1 / (xs.length : ℝ)
              * (xs.map (fun x => (x - xs.sum / (xs.length : ℝ)) ^ 2)).sum) (3 / 2)) := by
  rw [pushAll_closed xs hlen]
  have hpos := centralSum_two_pos xs hne
  have hn : (0 : ℝ) < (xs.length : ℝ) := by exact_mod_cast (show 0 < xs.length by omega)
  have hP : (0 : ℝ) < Real.rpow (centralSum 2 (mean xs) xs) (3 / 2) :=
    Real.rpow_pos_of_pos hpos _
  have e : Skewness Real.sqrt Real.rpow (⟨(xs.length : ℤ), fin (mean xs),
      fin (centralSum 2 (mean xs) xs), fin (centralSum 3 (mean xs) xs),
      fin (centralSum 4 (mean xs) xs)⟩ : Stat ℝ)
      = fin (Real.sqrt (xs.length : ℝ) * centralSum 3 (mean xs) xs
          / Real.rpow (centralSum 2 (mean xs) xs) (3 / 2)) := by
    have hP2 : Real.rpow (centralSum 2 (mean xs) xs) (3 / 2) ≠ 0 := ne_of_gt hP
    simp only [Skewness, float64, Float64.Sqrt, Float64.Pow, Int.cast_natCast,
      not_lt.mpr (le_of_lt hn), not_lt.mpr (le_of_lt hpos), if_false, Float64.fin_mul_fin,
      Float64.fin_div_fin, hP2]
  rw [e, Float64.fin.injEq]
  change _ = (1 / (xs.length : ℝ) * centralSum 3 (mean xs) xs)
      / Real.rpow (1 / (xs.length : ℝ) * centralSum 2 (mean xs) xs) (3 / 2)
  have hsq : Real.sqrt (xs.length : ℝ) * Real.sqrt (xs.length : ℝ) = (xs.length : ℝ) :=
    Real.mul_self_sqrt (le_of_lt hn)
  have hsqpos : 0 < Real.sqrt (xs.length : ℝ) := Real.sqrt_pos.mpr hn
  have hn32 : Real.rpow (xs.length : ℝ) (3 / 2)
      = (xs.length : ℝ) * Real.sqrt (xs.length : ℝ) := by
    have h1 : ((3 : ℝ) / 2) = 1 + 1 / 2 := by norm_num
    rw [Real.sqrt_eq_rpow, Real.rpow_eq_pow, h1, Real.rpow_add hn, Real.rpow_one]
  have hdiv : Real.rpow (1 / (xs.length : ℝ) * centralSum 2 (mean xs) xs) (3 / 2)
      = Real.rpow (centralSum 2 (mean xs) xs) (3 / 2)
        / ((xs.length : ℝ) * Real.sqrt (xs.length : ℝ)) := by
    rw [← hn32, one_div_mul_eq_div]
    exact Real.div_rpow (le_of_lt hpos) (le_of_lt hn) _
  rw [hdiv]
  have hP2 : Real.rpow (centralSum 2 (mean xs) xs) (3 / 2) ≠ 0 := ne_of_gt hP
  field_simp
  ring

/-- Witness of C10 at the values 0, 2, 4. -/
theorem C10_skewness_witness :
    2 ≤ ([0, 2, 4] : List ℝ).length ∧ ([0, 2, 4] : List ℝ).length < 2 ^ 63 ∧
    (∃ x ∈ ([0, 2, 4] : List ℝ), ∃ y ∈ ([0, 2, 4] : List ℝ), x ≠ y) ∧
    Skewness Real.sqrt Real.rpow (pushAll ([0, 2, 4] : List ℝ))
      = fin ((1 / (([0, 2, 4] : List ℝ).length : ℝ) * (([0, 2, 4] : List ℝ).map
            (fun x => (x - ([0, 2, 4] : List ℝ).sum / (([0, 2, 4] : List ℝ).length : ℝ)) ^ 3)).sum)
          / Real.rpow (1 / (([0, 2, 4] : List ℝ).length : ℝ) * (([0, 2, 4] : List ℝ).map
            (fun x => (x - ([0, 2, 4] : List ℝ).sum / (([0, 2, 4] : List ℝ).length : ℝ)) ^ 2)).sum)
              (3 / 2)) :=
  ⟨by norm_num, by norm_num, ⟨0, by simp, 2, by simp, by norm_num⟩,
    C10_skewness [0, 2, 4] (by norm_num) (by norm_num) ⟨0, by simp, 2, by simp, by norm_num⟩⟩

/-! ## Further lemmas -/

theorem wrap64_one : wrap64 (0 + 1) = 1 := by norm_num [wrap64]

/-- The state after the first push: one observation, no deviation. -/
theorem Push_zero (x : K) : Push (Stat.zero : Stat K) (fin x) = ⟨1, fin x, fin 0, fin 0, fin 0⟩ := by
  have hz : (Stat.zero : Stat K) = ⟨0, fin 0, fin 0, fin 0, fin 0⟩ := rfl
  rw [hz, Push_fin _ _ _ _ _ _ (by rw [wrap64_one]; norm_num), wrap64_one]
  simp

theorem centralSum_replicate (k : ℕ) (hk : k ≠ 0) (c : K) (n : ℕ) :
    centralSum k c (List.replicate n c) = 0 := by
  simp [centralSum, List.map_replicate, List.sum_replicate, hk]

theorem mean_replicate (c : K) (n : ℕ) (hn : 1 ≤ n) : mean (List.replicate n c) = c := by
  have h : (n : K) ≠ 0 := by
    have : (0 : K) < (n : K) := by exact_mod_cast hn
    exact ne_of_gt this
  simp [mean, List.sum_replicate]
  field_simp

/-- The state after pushing the same value `n` times. -/
theorem pushAll_replicate (c : K) (n : ℕ) (hn : n < 2 ^ 63) :
    pushAll (List.replicate n c)
      = ⟨(n : ℤ), fin (if n = 0 then 0 else c), fin 0, fin 0, fin 0⟩ := by
  rw [pushAll_closed _ (by simpa using hn)]
  rcases Nat.eq_zero_or_pos n with h0 | hpos
  · subst h0
    simp [mean, centralSum]
  · rw [mean_replicate c n hpos, centralSum_replicate 2 (by norm_num),
      centralSum_replicate 3 (by norm_num), centralSum_replicate 4 (by norm_num)]
    simp [Nat.pos_iff_ne_zero.mp hpos]

/-- C11, as stated, fails for a value that is not a number: pushing NaN or an infinity
(the value `undef`) into an empty Stat leaves `M2`, `M3` and `M4` undefined, not 0. -/
theorem C11_single_push_counterexample :
    Push (Stat.zero : Stat ℚ) undef = ⟨1, undef, undef, undef, undef⟩ ∧
    (Push (Stat.zero : Stat ℚ) undef).M2 ≠ fin 0 ∧
    (Push (Stat.zero : Stat ℚ) undef).M3 ≠ fin 0 ∧
    (Push (Stat.zero : Stat ℚ) undef).M4 ≠ fin 0 := by
  decide

/-- C11, amended: in exact (real) arithmetic, pushing one real value `x` (a number, not NaN
or an infinity) into an empty Stat yields exactly `N = 1`, `M1 = x`, `M2 = M3 = M4 = 0`;
hence `Mean() = x`, `Variance() = 0`, `StdDev() = 0`, and in both `Skewness()` and
`ExcessKurtosis()` the numerator and the divisor of the quotient are 0, so that the result
is the undefined 0/0 form (NaN in IEEE-754). -/
theorem C11_single_push (x : ℝ) :
    Push (Stat.zero : Stat ℝ) (fin x) = ⟨1, fin x, fin 0, fin 0, fin 0⟩ ∧
    Mean (Push (Stat.zero : Stat ℝ) (fin x)) = fin x ∧
    Variance (Push (Stat.zero : Stat ℝ) (fin x)) = fin 0 ∧
    StdDev Real.sqrt (Push (Stat.zero : Stat ℝ) (fin x)) = fin 0 ∧
    Float64.Sqrt Real.sqrt (float64 (Push (Stat.zero : Stat ℝ) (fin x)).N)
      * (Push (Stat.zero : Stat ℝ) (fin x)).M3 = fin 0 ∧
    Float64.Pow Real.rpow (Push (Stat.zero : Stat ℝ) (fin x)).M2 (fin (3 / 2)) = fin 0 ∧
    Skewness Real.sqrt Real.rpow (Push (Stat.zero : Stat ℝ) (fin x)) = undef ∧
    float64 (Push (Stat.zero : Stat ℝ) (fin x)).N * (Push (Stat.zero : Stat ℝ) (fin x)).M4
      = fin 0 ∧
    (Push (Stat.zero : Stat ℝ) (fin x)).M2 * (Push (Stat.zero : Stat ℝ) (fin x)).M2 = fin 0 ∧
    ExcessKurtosis (Push (Stat.zero : Stat ℝ) (fin x)) = undef := by
  have hp : Real.rpow 0 (3 / 2) = 0 := Real.zero_rpow (by norm_num)
  rw [Push_zero]
  refine ⟨rfl, rfl, ?_, ?_, ?_, ?_, ?_, ?_, ?_, ?_⟩
  · simp [Variance]
  · simp [StdDev, Variance, Float64.Sqrt]
  · simp [Float64.Sqrt, float64]
  · simp [Float64.Pow, hp]
  · simp [Skewness, Float64.Sqrt, Float64.Pow, float64, hp]
  · simp [float64]
  · simp
  · simp [ExcessKurtosis, float64]

/-- C12, as stated, fails for a value that is not a number: after pushing NaN or an
infinity (the value `undef`) into an empty Stat twice, `M2`, `M3` and `M4` are undefined,
not 0, and so is `Variance()`. -/
theorem C12_constant_series_counterexample :
    Push (Push (Stat.zero : Stat ℚ) undef) undef = ⟨2, undef, undef, undef, undef⟩ ∧
    (Push (Push (Stat.zero : Stat ℚ) undef) undef).M2 ≠ fin 0 ∧
    Variance (Push (Push (Stat.zero : Stat ℚ) undef) undef) = undef ∧
    Variance (Push (Push (Stat.zero : Stat ℚ) undef) undef) ≠ fin 0 := by
  decide

/-- C12, amended: in exact (real) arithmetic, after pushing the same real value `c` (a
number, not NaN or an infinity) into an empty Stat `n` times (`n` below `2^63`, the range of
the counter), `M2 = M3 = M4 = 0` and `Variance() = StdDev() = 0` exactly, and `M1 = c` when
`n >= 1`; in particular the empty Stat has `StdDev() = 0`. -/
theorem C12_constant_series (c : ℝ) (n : ℕ) (hn : n < 2 ^ 63) :
    (pushAll (List.replicate n c)).M2 = fin 0 ∧
    (pushAll (List.replicate n c)).M3 = fin 0 ∧
    (pushAll (List.replicate n c)).M4 = fin 0 ∧
    Variance (pushAll (List.replicate n c)) = fin 0 ∧
    StdDev Real.sqrt (pushAll (List.replicate n c)) = fin 0 ∧
    (1 ≤ n → (pushAll (List.replicate n c)).M1 = fin c) ∧
    StdDev Real.sqrt (Stat.zero : Stat ℝ) = fin 0 := by
  rw [pushAll_replicate c n hn]
  have hv : Variance (⟨(n : ℤ), fin (if n = 0 then 0 else c), fin 0, fin 0, fin 0⟩ : Stat ℝ)
      = fin 0 := by
    unfold Variance
    by_cases h : ((n : ℤ)) > 1
    · have h1 : ((n : ℝ)) - 1 ≠ 0 := by
        have : (1 : ℝ) < (n : ℝ) := by exact_mod_cast h
        linarith
      simp [h, float64, h1]
    · simp [h]
  refine ⟨rfl, rfl, rfl, hv, ?_, ?_, ?_⟩
  · rw [StdDev, hv]
    simp [Float64.Sqrt]
  · intro h1
    have : n ≠ 0 := by omega
    simp [this]
  · simp [StdDev, Variance, Stat.zero, Float64.Sqrt]

/-- Witness of C12 at three pushes of the value 1 (the case of the test). -/
theorem C12_constant_series_witness :
    (3 : ℕ) < 2 ^ 63 ∧ (1 : ℕ) ≤ 3 ∧
    (pushAll (List.replicate 3 (1 : ℝ))).M2 = fin 0 ∧
    StdDev Real.sqrt (pushAll (List.replicate 3 (1 : ℝ))) = fin 0 ∧
    (pushAll (List.replicate 3 (1 : ℝ))).M1 = fin 1 :=
  ⟨by norm_num, by norm_num, (C12_constant_series 1 3 (by norm_num)).1,
    (C12_constant_series 1 3 (by norm_num)).2.2.2.2.1,
    (C12_constant_series 1 3 (by norm_num)).2.2.2.2.2.1 (by norm_num)⟩

/-- The state after pushing the arithmetic progression `a`, `a + d`, `a + 2 d`. -/
theorem pushAll_progression (a d : K) :
    pushAll [a, a + d, a + 2 * d] = ⟨3, fin (a + d), fin (2 * d ^ 2), fin 0, fin (2 * d ^ 4)⟩ := by
  rw [pushAll_closed _ (by norm_num)]
  have hm : mean [a, a + d, a + 2 * d] = a + d := by
    simp [mean]
    field_simp
    ring
  rw [hm, Stat.mk.injEq, Float64.fin.injEq, Float64.fin.injEq, Float64.fin.injEq,
    Float64.fin.injEq]
  refine ⟨by simp, rfl, ?_, ?_, ?_⟩
  · simp [centralSum]
    ring
  · simp [centralSum]
    ring
  · simp [centralSum]
    ring

/-- C13: for every `a` and every `d != 0`, after pushing `a`, `a + d`, `a + 2 d` into an empty
Stat: `Mean() = a + d`, `Variance() = d^2`, `StdDev() = |d|`, `M3 = 0`, `Skewness() = 0` and
`ExcessKurtosis() = -1.5`. -/
theorem C13_arithmetic_triple (a d : ℝ) (hd : d ≠ 0) :
    Mean (pushAll [a, a + d, a + 2 * d]) = fin (a + d) ∧
    Variance (pushAll [a, a + d, a + 2 * d]) = fin (d ^ 2) ∧
    StdDev Real.sqrt (pushAll [a, a + d, a + 2 * d]) = fin |d| ∧
    (pushAll [a, a + d, a + 2 * d]).M3 = fin 0 ∧
    Skewness Real.sqrt Real.rpow (pushAll [a, a + d, a + 2 * d]) = fin 0 ∧
    ExcessKurtosis (pushAll [a, a + d, a + 2 * d]) = fin (-(3 / 2)) := by
  rw [pushAll_progression]
  have hd2 : 0 < 2 * d ^ 2 := by positivity
  have hv : Variance (⟨3, fin (a + d), fin (2 * d ^ 2), fin 0, fin (2 * d ^ 4)⟩ : Stat ℝ)
      = fin (d ^ 2) := by
    simp [Variance, float64]
    norm_num
  have hP : Real.rpow (2 * d ^ 2) (3 / 2) ≠ 0 := ne_of_gt (Real.rpow_pos_of_pos hd2 _)
  refine ⟨rfl, hv, ?_, rfl, ?_, ?_⟩
  · rw [StdDev, hv]
    simp [Float64.Sqrt, not_lt.mpr (sq_nonneg d), Real.sqrt_sq_eq_abs]
  · simp only [Skewness, float64, Float64.Sqrt, Float64.Pow, Int.cast_ofNat,
      not_lt.mpr (le_of_lt hd2), if_false, Float64.fin_mul_fin, Float64.fin_div_fin, hP,
      mul_zero, zero_div]
    norm_num
    intro h
    exact absurd h hP
  · simp only [ExcessKurtosis, float64, Float64.fin_mul_fin, Float64.fin_div_fin,
      Float64.ofNat_eq_fin, Float64.fin_sub_fin]
    have h4 : 2 * d ^ 2 * (2 * d ^ 2) ≠ 0 := by positivity
    rw [if_neg h4, Float64.fin_sub_fin, Float64.fin.injEq]
    push_cast
    field_simp
    ring

/-- Witness of C13 at the series 1, 2, 3 (`a = 1`, `d = 1`) and 0, 2, 4 (`a = 0`, `d = 2`)
of the tests. -/
theorem C13_arithmetic_triple_witness :
    (1 : ℝ) ≠ 0 ∧ (2 : ℝ) ≠ 0 ∧
    (Mean (pushAll [(1 : ℝ), 1 + 1, 1 + 2 * 1]) = fin (1 + 1) ∧
      Variance (pushAll [(1 : ℝ), 1 + 1, 1 + 2 * 1]) = fin (1 ^ 2) ∧
      StdDev Real.sqrt (pushAll [(1 : ℝ), 1 + 1, 1 + 2 * 1]) = fin |1| ∧
      (pushAll [(1 : ℝ), 1 + 1, 1 + 2 * 1]).M3 = fin 0 ∧
      Skewness Real.sqrt Real.rpow (pushAll [(1 : ℝ), 1 + 1, 1 + 2 * 1]) = fin 0 ∧
      ExcessKurtosis (pushAll [(1 : ℝ), 1 + 1, 1 + 2 * 1]) = fin (-(3 / 2))) ∧
    (Mean (pushAll [(0 : ℝ), 0 + 2, 0 + 2 * 2]) = fin (0 + 2) ∧
      Variance (pushAll [(0 : ℝ), 0 + 2, 0 + 2 * 2]) = fin (2 ^ 2) ∧
      StdDev Real.sqrt (pushAll [(0 : ℝ), 0 + 2, 0 + 2 * 2]) = fin |2| ∧
      (pushAll [(0 : ℝ), 0 + 2, 0 + 2 * 2]).M3 = fin 0 ∧
      Skewness Real.sqrt Real.rpow (pushAll [(0 : ℝ), 0 + 2, 0 + 2 * 2]) = fin 0 ∧
      ExcessKurtosis (pushAll [(0 : ℝ), 0 + 2, 0 + 2 * 2]) = fin (-(3 / 2))) :=
  ⟨by norm_num, by norm_num, C13_arithmetic_triple 1 1 (by norm_num),
    C13_arithmetic_triple 0 2 (by norm_num)⟩

/-- The state after pushing the six values of the tests, 2, 6, 10, 50, 100, 103. -/
theorem pushAll_test_series :
    pushAll ([2, 6, 10, 50, 100, 103] : List K)
      = ⟨6, fin (271 / 6), fin (66053 / 6), fin (1569659 / 9), fin (1985940515 / 72)⟩ := by
  rw [pushAll_closed _ (by norm_num)]
  have hm : mean ([2, 6, 10, 50, 100, 103] : List K) = 271 / 6 := by
    simp [mean]
    norm_num
  rw [hm, Stat.mk.injEq, Float64.fin.injEq, Float64.fin.injEq, Float64.fin.injEq,
    Float64.fin.injEq]
  refine ⟨by simp, rfl, ?_, ?_, ?_⟩
  · simp [centralSum]
    norm_num
  · simp [centralSum]
    norm_num
  · simp [centralSum]
    norm_num

/-- The state after merging the two halves of the merge test, 2, 10, 103 and 6, 50, 100. -/
theorem Combined_test_series :
    Combined (pushAll ([2, 10, 103] : List K)) (pushAll ([6, 50, 100] : List K))
      = ⟨6, fin (271 / 6), fin (66053 / 6), fin (1569659 / 9), fin (1985940515 / 72)⟩ := by
  rw [Combined_pushAll _ _ (by simp) (by norm_num), pushAll_closed _ (by norm_num)]
  have hm : mean (([2, 10, 103] : List K) ++ [6, 50, 100]) = 271 / 6 := by
    simp [mean]
    norm_num
  rw [hm, Stat.mk.injEq, Float64.fin.injEq, Float64.fin.injEq, Float64.fin.injEq,
    Float64.fin.injEq]
  refine ⟨by simp, rfl, ?_, ?_, ?_⟩
  · simp [centralSum]
    norm_num
  · simp [centralSum]
    norm_num
  · simp [centralSum]
    norm_num

/-- Mean, standard deviation and excess kurtosis of the state of the test series, within
`10^-10` of the reference values of the tests. -/
theorem test_series_statistics :
    ∃ m sd ek : ℝ,
      Mean (⟨6, fin (271 / 6), fin (66053 / 6), fin (1569659 / 9),
        fin (1985940515 / 72)⟩ : Stat ℝ) = fin m ∧
      |m - 45.166666666667| < 1 / 10 ^ 10 ∧
      StdDev Real.sqrt (⟨6, fin (271 / 6), fin (66053 / 6), fin (1569659 / 9),
        fin (1985940515 / 72)⟩ : Stat ℝ) = fin sd ∧
      |sd - 46.922986548883| < 1 / 10 ^ 10 ∧
      ExcessKurtosis (⟨6, fin (271 / 6), fin (66053 / 6), fin (1569659 / 9),
        fin (1985940515 / 72)⟩ : Stat ℝ) = fin ek ∧
      |ek - (-1.63446638291)| < 1 / 10 ^ 10 := by
  have hv : Variance (⟨6, fin (271 / 6), fin (66053 / 6), fin (1569659 / 9),
      fin (1985940515 / 72)⟩ : Stat ℝ) = fin (66053 / 30) := by
    simp [Variance, float64]
    norm_num
  refine ⟨271 / 6, Real.sqrt (66053 / 30), -548551914 / 335615293, rfl, ?_, ?_, ?_, ?_, ?_⟩
  · rw [abs_lt]
    constructor <;> norm_num
  · rw [StdDev, hv]
    have : ¬ ((66053 : ℝ) / 30 < 0) := by norm_num
    simp [Float64.Sqrt, this]
  · rw [abs_lt]
    constructor
    · have h : (46.922986548883 - 1 / 10 ^ 10 : ℝ) < Real.sqrt (66053 / 30) := by
        rw [Real.lt_sqrt (by norm_num)]
        norm_num
      linarith
    · have h : Real.sqrt (66053 / 30) < (46.922986548883 + 1 / 10 ^ 10 : ℝ) := by
        rw [Real.sqrt_lt' (by norm_num)]
        norm_num
      linarith
  · simp [ExcessKurtosis, float64]
    norm_num
  · rw [abs_lt]
    constructor <;> norm_num

/-- C14: after pushing 2, 6, 10, 50, 100, 103 into an empty Stat, and likewise after pushing
2, 10, 103 and 6, 50, 100 into two Stats and combining them, `Mean()` is within `1e-10` of
45.166666666667, `StdDev()` within `1e-10` of 46.922986548883 and `ExcessKurtosis()` within
`1e-10` of -1.63446638291. -/
theorem C14_test_series_values :
    (∃ m sd ek : ℝ,
      Mean (pushAll ([2, 6, 10, 50, 100, 103] : List ℝ)) = fin m ∧
      |m - 45.166666666667| < 1 / 10 ^ 10 ∧
      StdDev Real.sqrt (pushAll ([2, 6, 10, 50, 100, 103] : List ℝ)) = fin sd ∧
      |sd - 46.922986548883| < 1 / 10 ^ 10 ∧
      ExcessKurtosis (pushAll ([2, 6, 10, 50, 100, 103] : List ℝ)) = fin ek ∧
      |ek - (-1.63446638291)| < 1 / 10 ^ 10) ∧
    (∃ m sd ek : ℝ,
      Mean (Combine (pushAll ([2, 10, 103] : List ℝ)) (pushAll [6, 50, 100])) = fin m ∧
      |m - 45.166666666667| < 1 / 10 ^ 10 ∧
      StdDev Real.sqrt (Combine (pushAll ([2, 10, 103] : List ℝ)) (pushAll [6, 50, 100]))
        = fin sd ∧
      |sd - 46.922986548883| < 1 / 10 ^ 10 ∧
      ExcessKurtosis (Combine (pushAll ([2, 10, 103] : List ℝ)) (pushAll [6, 50, 100]))
        = fin ek ∧
      |ek - (-1.63446638291)| < 1 / 10 ^ 10) := by
  unfold Combine
  rw [pushAll_test_series, Combined_test_series]
  exact ⟨test_series_statistics, test_series_statistics⟩

/-- Skewness of the state of the test series: defined, and between 0.3698 and 0.3699. -/
theorem test_series_skewness :
    ∃ r : ℝ, Skewness Real.sqrt Real.rpow (⟨6, fin (271 / 6), fin (66053 / 6),
        fin (1569659 / 9), fin (1985940515 / 72)⟩ : Stat ℝ) = fin r ∧
      0.3698 < r ∧ r < 0.3699 := by
  have hM2 : (0 : ℝ) < 66053 / 6 := by norm_num
  have hP : 0 < Real.rpow (66053 / 6) (3 / 2) := Real.rpow_pos_of_pos hM2 _
  have hP2 : Real.rpow (66053 / 6) (3 / 2) ^ 2 = (66053 / 6) ^ 3 := by
    rw [Real.rpow_eq_pow, ← Real.rpow_natCast, ← Real.rpow_mul (le_of_lt hM2)]
    norm_num
  have h6 : Real.sqrt 6 ^ 2 = 6 := Real.sq_sqrt (by norm_num)
  have h6pos : 0 < Real.sqrt 6 := Real.sqrt_pos.mpr (by norm_num)
  refine ⟨Real.sqrt 6 * (1569659 / 9) / Real.rpow (66053 / 6) (3 / 2), ?_, ?_, ?_⟩
  · have hne : Real.rpow (66053 / 6) (3 / 2) ≠ 0 := ne_of_gt hP
    have hlt : ¬ ((66053 : ℝ) / 6 < 0) := not_lt.mpr (le_of_lt hM2)
    have h6' : ¬ ((6 : ℝ) < 0) := by norm_num
    simp only [Skewness, float64, Float64.Sqrt, Float64.Pow, Int.cast_ofNat, hlt, h6',
      if_false, Float64.fin_mul_fin, Float64.fin_div_fin, hne]
  · have hsq : (0.3698 : ℝ) ^ 2
        < (Real.sqrt 6 * (1569659 / 9) / Real.rpow (66053 / 6) (3 / 2)) ^ 2 := by
      rw [div_pow, mul_pow, h6, hP2]
      norm_num
    have hr : 0 ≤ Real.sqrt 6 * (1569659 / 9) / Real.rpow (66053 / 6) (3 / 2) := by positivity
    exact lt_of_pow_lt_pow_left₀ 2 hr hsq
  · have hsq : (Real.sqrt 6 * (1569659 / 9) / Real.rpow (66053 / 6) (3 / 2)) ^ 2
        < (0.3699 : ℝ) ^ 2 := by
      rw [div_pow, mul_pow, h6, hP2]
      norm_num
    exact lt_of_pow_lt_pow_left₀ 2 (by norm_num) hsq

/-- C15, the value the code returns: after pushing 2, 6, 10, 50, 100, 103 into an empty
Stat, `Skewness()` = `sqrt(N) * M3 / M2^1.5` lies between 0.3698 and 0.3699 (about 0.36985),
more than 0.03 away from the reference value 0.3376 of the tests. -/
theorem C15_skewness_test_series :
    ∃ r : ℝ, Skewness Real.sqrt Real.rpow (pushAll ([2, 6, 10, 50, 100, 103] : List ℝ)) = fin r ∧
      0.3698 < r ∧ r < 0.3699 ∧ ¬ (|r - 0.3376| < 0.00005) := by
  rw [pushAll_test_series]
  obtain ⟨r, hr, hlo, hhi⟩ := test_series_skewness
  refine ⟨r, hr, hlo, hhi, ?_⟩
  rw [abs_lt]
  intro h
  have := h.2
  norm_num at this hlo
  linarith

theorem mean_perm {xs ys : List K} (h : xs.Perm ys) : mean ys = mean xs := by
  unfold mean
  rw [h.sum_eq, h.length_eq]

theorem centralSum_perm (k : ℕ) (c : K) {xs ys : List K} (h : xs.Perm ys) :
    centralSum k c ys = centralSum k c xs := by
  unfold centralSum
  exact ((h.map _).sum_eq).symm

/-- C16: the state reached by Push does not depend on the order of the observations: for
every list `xs` (fewer than `2^63` values) and every permutation `ys` of `xs`, pushing `xs`
and pushing `ys` into an empty Stat give equal `N`, `M1`, `M2`, `M3` and `M4`. -/
theorem C16_push_order_independent (xs ys : List K) (hperm : xs.Perm ys)
    (hlen : xs.length < 2 ^ 63) :
    (pushAll ys).N = (pushAll xs).N ∧ (pushAll ys).M1 = (pushAll xs).M1 ∧
    (pushAll ys).M2 = (pushAll xs).M2 ∧ (pushAll ys).M3 = (pushAll xs).M3 ∧
    (pushAll ys).M4 = (pushAll xs).M4 := by
  rw [pushAll_closed xs hlen, pushAll_closed ys (by rw [← hperm.length_eq]; exact hlen),
    mean_perm hperm, centralSum_perm 2 _ hperm, centralSum_perm 3 _ hperm,
    centralSum_perm 4 _ hperm, hperm.length_eq]
  exact ⟨rfl, rfl, rfl, rfl, rfl⟩

/-- Witness of C16 at the test series and the order in which the merge test sees it. -/
theorem C16_push_order_independent_witness :
    ([2, 6, 10, 50, 100, 103] : List ℚ).Perm [2, 10, 103, 6, 50, 100] ∧
    ([2, 6, 10, 50, 100, 103] : List ℚ).length < 2 ^ 63 ∧
    ((pushAll ([2, 10, 103, 6, 50, 100] : List ℚ)).N
      = (pushAll ([2, 6, 10, 50, 100, 103] : List ℚ)).N ∧
    (pushAll ([2, 10, 103, 6, 50, 100] : List ℚ)).M1
      = (pushAll ([2, 6, 10, 50, 100, 103] : List ℚ)).M1 ∧
    (pushAll ([2, 10, 103, 6, 50, 100] : List ℚ)).M2
      = (pushAll ([2, 6, 10, 50, 100, 103] : List ℚ)).M2 ∧
    (pushAll ([2, 10, 103, 6, 50, 100] : List ℚ)).M3
      = (pushAll ([2, 6, 10, 50, 100, 103] : List ℚ)).M3 ∧
    (pushAll ([2, 10, 103, 6, 50, 100] : List ℚ)).M4
      = (pushAll ([2, 6, 10, 50, 100, 103] : List ℚ)).M4) :=
  ⟨by decide, by norm_num,
    C16_push_order_independent [2, 6, 10, 50, 100, 103] [2, 10, 103, 6, 50, 100] (by decide)
      (by norm_num)⟩

/-- C17, as stated, fails in three places.  Two empty Stats satisfy `N >= 0` and `M2 >= 0`,
but their merge has an undefined `M2` (0/0).  A Stat at the largest int64 count satisfies
it, but the count after Push wraps around to `-2^63`.  And the Stat reached by merging two
empty Stats and pushing 1 and 2 has an undefined `Variance()`. -/
theorem C17_invariant_counterexample :
    ((0 : ℤ) ≤ (Stat.zero : Stat ℚ).N ∧ (Stat.zero : Stat ℚ).M2 = fin 0 ∧
      ¬ ∃ v : ℚ, (Combined (Stat.zero : Stat ℚ) Stat.zero).M2 = fin v ∧ 0 ≤ v) ∧
    ((0 : ℤ) ≤ 2 ^ 63 - 1 ∧
      (Push (⟨2 ^ 63 - 1, fin 0, fin 0, fin 0, fin 0⟩ : Stat ℚ) (fin 1)).N = -2 ^ 63) ∧
    Variance (Push (Push (Combined (Stat.zero : Stat ℚ) Stat.zero) (fin 1)) (fin 2))
      = undef := by
  have h0 : (Combined (Stat.zero : Stat ℚ) Stat.zero).M2 = undef := by decide
  refine ⟨⟨by decide, rfl, ?_⟩, ⟨by norm_num, ?_⟩, by decide⟩
  · rintro ⟨v, hv, _⟩
    rw [h0] at hv
    cases hv
  · norm_num [Push, wrap64]

/-- C17, amended: `N >= 0` and `M2 >= 0` hold for the zero-valued Stat; on Stats with real
moment fields, Push keeps them when the count stays in the int64 range (`N + 1 < 2^63`),
and Combined of two Stats that satisfy them satisfies them when the total count is
positive and in the int64 range (`0 < a.N + b.N < 2^63`); the results again have real
moment fields; and `Variance() >= 0` on every Stat with `N >= 0` and `M2 >= 0`. -/
theorem C17_invariant :
    ((0 : ℤ) ≤ (Stat.zero : Stat K).N ∧ (Stat.zero : Stat K).M2 = fin 0) ∧
    (∀ (n : ℤ) (m1 m2 m3 m4 x : K), 0 ≤ n → n + 1 < 2 ^ 63 → 0 ≤ m2 →
      ∃ p1 p2 p3 p4 : K,
        Push ⟨n, fin m1, fin m2, fin m3, fin m4⟩ (fin x) = ⟨n + 1, fin p1, fin p2, fin p3, fin p4⟩
          ∧ (0 : ℤ) ≤ n + 1 ∧ 0 ≤ p2) ∧
    (∀ (n m : ℤ) (a1 a2 a3 a4 b1 b2 b3 b4 : K), 0 ≤ n → 0 ≤ m → 0 < n + m →
      n + m < 2 ^ 63 → 0 ≤ a2 → 0 ≤ b2 →
      ∃ c1 c2 c3 c4 : K,
        Combined ⟨n, fin a1, fin a2, fin a3, fin a4⟩ ⟨m, fin b1, fin b2, fin b3, fin b4⟩
          = ⟨n + m, fin c1, fin c2, fin c3, fin c4⟩ ∧ (0 : ℤ) ≤ n + m ∧ 0 ≤ c2) ∧
    (∀ (n : ℤ) (m1 m3 m4 : Float64 K) (m2 : K), 0 ≤ n → 0 ≤ m2 →
      ∃ v : K, Variance ⟨n, m1, fin m2, m3, m4⟩ = fin v ∧ 0 ≤ v) := by
  refine ⟨⟨le_refl _, rfl⟩, ?_, ?_, ?_⟩
  · intro n m1 m2 m3 m4 x hn hr hm2
    have hw : wrap64 (n + 1) = n + 1 := wrap64_of_range (by norm_num; omega) hr
    have hpos : (0 : K) < ((n + 1 : ℤ) : K) := by exact_mod_cast (show (0 : ℤ) < n + 1 by omega)
    have hn' : (0 : K) ≤ (n : K) := by exact_mod_cast hn
    have hP := Push_fin n m1 m2 m3 m4 x (by rw [hw]; exact ne_of_gt hpos)
    rw [hw] at hP
    refine ⟨_, _, _, _, hP, by omega, ?_⟩
    have e : (x - m1) * ((x - m1) / ((n + 1 : ℤ) : K)) * (n : K)
        = (x - m1) ^ 2 * ((n : K) / ((n + 1 : ℤ) : K)) := by ring
    rw [e]
    positivity
  · intro n m a1 a2 a3 a4 b1 b2 b3 b4 hn hm hpos hr ha2 hb2
    have hw : wrap64 (n + m) = n + m := wrap64_of_range (by norm_num; omega) hr
    have hc : (0 : K) < ((n + m : ℤ) : K) := by exact_mod_cast hpos
    have hn' : (0 : K) ≤ (n : K) := by exact_mod_cast hn
    have hm' : (0 : K) ≤ (m : K) := by exact_mod_cast hm
    have hC := Combined_fin n m a1 a2 a3 a4 b1 b2 b3 b4 (by rw [hw]; exact ne_of_gt hc)
    rw [hw] at hC
    refine ⟨_, _, _, _, hC, by omega, ?_⟩
    have e : (b1 - a1) * (b1 - a1) * (n : K) * (m : K) / ((n + m : ℤ) : K)
        = (b1 - a1) ^ 2 * ((n : K) * (m : K) / ((n + m : ℤ) : K)) := by ring
    rw [e]
    positivity
  · intro n m1 m3 m4 m2 hn hm2
    unfold Variance
    by_cases h : n > 1
    · have h1 : (0 : K) < (n : K) - 1 := by
        have : (1 : K) < (n : K) := by exact_mod_cast h
        linarith
      refine ⟨m2 / ((n : K) - 1), ?_, by positivity⟩
      simp [h, float64, ne_of_gt h1]
    · exact ⟨0, by simp [h], le_refl _⟩

/-- Witness of C17 at the state of 0, 2, 4: a push of 5, a merge with itself, its variance. -/
theorem C17_invariant_witness :
    ((0 : ℤ) ≤ 3 ∧ (3 : ℤ) + 1 < 2 ^ 63 ∧ (0 : ℚ) ≤ 8 ∧
      ∃ p1 p2 p3 p4 : ℚ,
        Push ⟨3, fin 2, fin 8, fin 0, fin 32⟩ (fin 5) = ⟨3 + 1, fin p1, fin p2, fin p3, fin p4⟩
          ∧ (0 : ℤ) ≤ 3 + 1 ∧ 0 ≤ p2) ∧
    ((0 : ℤ) < 3 + 3 ∧ (3 : ℤ) + 3 < 2 ^ 63 ∧
      ∃ c1 c2 c3 c4 : ℚ,
        Combined ⟨3, fin 2, fin 8, fin 0, fin 32⟩ ⟨3, fin 2, fin 8, fin 0, fin 32⟩
          = ⟨3 + 3, fin c1, fin c2, fin c3, fin c4⟩ ∧ (0 : ℤ) ≤ 3 + 3 ∧ 0 ≤ c2) ∧
    (∃ v : ℚ, Variance ⟨3, fin 2, fin 8, fin 0, fin 32⟩ = fin v ∧ 0 ≤ v) :=
  ⟨⟨by norm_num, by norm_num, by norm_num,
      (@C17_invariant ℚ _).2.1 3 2 8 0 32 5 (by norm_num) (by norm_num) (by norm_num)⟩,
    ⟨by norm_num, by norm_num,
      (@C17_invariant ℚ _).2.2.1 3 3 2 8 0 32 2 8 0 32 (by norm_num) (by norm_num)
        (by norm_num) (by norm_num) (by norm_num) (by norm_num)⟩,
    (@C17_invariant ℚ _).2.2.2 3 (fin 2) (fin 0) (fin 32) 8 (by norm_num) (by norm_num)⟩

/-- C18, as stated, fails at the largest int64 count: the count wraps around to `-2^63` in
both Push and Combined, and the two then disagree on `M1`. -/
theorem C18_push_as_combined_counterexample :
    (0 : ℤ) ≤ 2 ^ 63 - 1 ∧
    Push (⟨2 ^ 63 - 1, fin 1, fin 0, fin 0, fin 0⟩ : Stat ℚ) (fin 0)
      ≠ Combined ⟨2 ^ 63 - 1, fin 1, fin 0, fin 0, fin 0⟩ ⟨1, fin 0, fin 0, fin 0, fin 0⟩ := by
  refine ⟨by norm_num, ?_⟩
  intro h
  have h1 := congrArg Stat.M1 h
  norm_num [Push, Combined, float64, wrap64] at h1

/-- C18, amended: Push is the special case of Combined with a one-observation accumulator:
for every Stat `s` with real moment fields and `0 <= s.N < 2^63 - 1` (so that the count does
not leave the int64 range) and every value `x`, the state after `s.Push(x)` equals
`Combined(s, t)` with `t = {N: 1, M1: x, M2: 0, M3: 0, M4: 0}`, field by field. -/
theorem C18_push_as_combined (n : ℤ) (m1 m2 m3 m4 x : K) (hn : 0 ≤ n)
    (hr : n + 1 < 2 ^ 63) :
    Push ⟨n, fin m1, fin m2, fin m3, fin m4⟩ (fin x)
      = Combined ⟨n, fin m1, fin m2, fin m3, fin m4⟩ ⟨1, fin x, fin 0, fin 0, fin 0⟩ := by
  have hw : wrap64 (n + 1) = n + 1 := wrap64_of_range (by norm_num; omega) hr
  have hpos : (0 : K) < (n : K) + 1 := by
    have : (0 : K) ≤ (n : K) := by exact_mod_cast hn
    linarith
  have hc : (((wrap64 (n + 1) : ℤ)) : K) = (n : K) + 1 := by
    rw [hw]; push_cast; rfl
  rw [Push_fin _ _ _ _ _ _ (by rw [hc]; exact ne_of_gt hpos),
    Combined_fin _ _ _ _ _ _ _ _ _ _ (by rw [hc]; exact ne_of_gt hpos), hc,
    Stat.mk.injEq, Float64.fin.injEq, Float64.fin.injEq, Float64.fin.injEq, Float64.fin.injEq]
  have hne : (n : K) + 1 ≠ 0 := ne_of_gt hpos
  simp only [Int.cast_one]
  generalize (n : K) = p at *
  refine ⟨trivial, ?_, ?_, ?_, ?_⟩
  · field_simp
    ring
  · field_simp
  · field_simp
    ring
  · field_simp
    ring

/-- Witness of C18 at the state of 0, 2, 4 and the value 5. -/
theorem C18_push_as_combined_witness :
    (0 : ℤ) ≤ 3 ∧ (3 : ℤ) + 1 < 2 ^ 63 ∧
    Push (⟨3, fin 2, fin 8, fin 0, fin 32⟩ : Stat ℚ) (fin 5)
      = Combined ⟨3, fin 2, fin 8, fin 0, fin 32⟩ ⟨1, fin 5, fin 0, fin 0, fin 0⟩ :=
  ⟨by norm_num, by norm_num, C18_push_as_combined 3 2 8 0 32 5 (by norm_num) (by norm_num)⟩

/-- Cauchy-Schwarz against the constant list: `(Σ f x)^2 <= n Σ (f x)^2`. -/
theorem sq_sum_le_length_mul_sum_sq (f : K → K) (xs : List K) :
    (xs.map f).sum ^ 2 ≤ (xs.length : K) * (xs.map (fun x => f x ^ 2)).sum := by
  induction xs with
  | nil => simp
  | cons a t ih =>
    have hexp : ∀ l : List K, (l.map (fun x => (f x - f a) ^ 2)).sum
        = (l.map (fun x => f x ^ 2)).sum - 2 * f a * (l.map f).sum
          + (l.length : K) * f a ^ 2 := by
      intro l
      induction l with
      | nil => simp
      | cons b u ihu =>
        simp only [List.map_cons, List.sum_cons, List.length_cons, Nat.cast_add, Nat.cast_one]
        rw [ihu]; ring
    have hnn : 0 ≤ (t.map (fun x => (f x - f a) ^ 2)).sum := by
      apply List.sum_nonneg
      intro y hy
      obtain ⟨x, _, rfl⟩ := List.mem_map.mp hy
      positivity
    rw [hexp t] at hnn
    simp only [List.map_cons, List.sum_cons, List.length_cons, Nat.cast_add, Nat.cast_one]
    nlinarith [ih, hnn]

theorem centralSum_four_eq (c : K) (xs : List K) :
    centralSum 4 c xs = (xs.map (fun x => ((x - c) ^ 2) ^ 2)).sum := by
  unfold centralSum
  congr 1
  apply List.map_congr_left
  intro x _
  ring

/-- C19: for every non-empty list of values (fewer than `2^63`) pushed into an empty Stat,
`M4 >= 0` and `N * M4 >= M2 * M2`; hence whenever `M2 > 0`, `ExcessKurtosis() >= -2`. -/
theorem C19_kurtosis_lower_bound (xs : List K) (hne : xs ≠ []) (hlen : xs.length < 2 ^ 63) :
    ∃ m2 m4 : K, (pushAll xs).M2 = fin m2 ∧ (pushAll xs).M4 = fin m4 ∧
      0 ≤ m4 ∧ m2 * m2 ≤ ((pushAll xs).N : K) * m4 ∧
      (0 < m2 → ∃ e : K, ExcessKurtosis (pushAll xs) = fin e ∧ -2 ≤ e) := by
  rw [pushAll_closed xs hlen]
  have h4 : 0 ≤ centralSum 4 (mean xs) xs := by
    rw [centralSum_four_eq]
    apply List.sum_nonneg
    intro y hy
    obtain ⟨x, _, rfl⟩ := List.mem_map.mp hy
    positivity
  have hcs : centralSum 2 (mean xs) xs * centralSum 2 (mean xs) xs
      ≤ (xs.length : K) * centralSum 4 (mean xs) xs := by
    have := sq_sum_le_length_mul_sum_sq (fun x => (x - mean xs) ^ 2) xs
    rw [centralSum_four_eq]
    unfold centralSum
    rw [← sq]
    exact this
  refine ⟨_, _, rfl, rfl, h4, ?_, ?_⟩
  · simpa using hcs
  · intro hpos
    have hS : centralSum 2 (mean xs) xs * centralSum 2 (mean xs) xs ≠ 0 := by positivity
    refine ⟨(xs.length : K) * centralSum 4 (mean xs) xs
      / (centralSum 2 (mean xs) xs * centralSum 2 (mean xs) xs) - 3, ?_, ?_⟩
    · simp [ExcessKurtosis, float64, hS]
    · have h1 : 1 ≤ (xs.length : K) * centralSum 4 (mean xs) xs
          / (centralSum 2 (mean xs) xs * centralSum 2 (mean xs) xs) := by
        rw [le_div_iff₀ (by positivity)]
        linarith
      linarith

/-- Witness of C19 at the values 0, 2, 4. -/
theorem C19_kurtosis_lower_bound_witness :
    ([0, 2, 4] : List ℚ) ≠ [] ∧ ([0, 2, 4] : List ℚ).length < 2 ^ 63 ∧
    ∃ m2 m4 : ℚ, (pushAll ([0, 2, 4] : List ℚ)).M2 = fin m2 ∧
      (pushAll ([0, 2, 4] : List ℚ)).M4 = fin m4 ∧
      0 ≤ m4 ∧ m2 * m2 ≤ ((pushAll ([0, 2, 4] : List ℚ)).N : ℚ) * m4 ∧
      (0 < m2 → ∃ e : ℚ, ExcessKurtosis (pushAll ([0, 2, 4] : List ℚ)) = fin e ∧ -2 ≤ e) :=
  ⟨by simp, by norm_num, C19_kurtosis_lower_bound [0, 2, 4] (by simp) (by norm_num)⟩

theorem sum_map_add (xs : List K) (c : K) :
    (xs.map (fun x => x + c)).sum = xs.sum + (xs.length : K) * c := by
  induction xs with
  | nil => simp
  | cons a t ih =>
    simp only [List.map_cons, List.sum_cons, List.length_cons, Nat.cast_add, Nat.cast_one]
    rw [ih]; ring

theorem mean_map_add (xs : List K) (c : K) (hne : xs ≠ []) :
    mean (xs.map (fun x => x + c)) = mean xs + c := by
  have hn : (xs.length : K) ≠ 0 := by
    have : (0 : K) < (xs.length : K) := by exact_mod_cast List.length_pos.mpr hne
    exact ne_of_gt this
  unfold mean
  rw [sum_map_add, List.length_map]
  field_simp
  ring

theorem centralSum_map_add (k : ℕ) (m c : K) (xs : List K) :
    centralSum k (m + c) (xs.map (fun x => x + c)) = centralSum k m xs := by
  unfold centralSum
  rw [List.map_map]
  congr 1
  apply List.map_congr_left
  intro x _
  simp only [Function.comp_apply]
  ring

/-- C20: Push is translation-equivariant: for every non-empty list (fewer than `2^63`
values) and every constant `c`, pushing `x1 + c, ..., xn + c` into an empty Stat gives the
same `N`, `M2`, `M3` and `M4` as pushing `x1, ..., xn`, and an `M1` larger by exactly `c`;
hence `Variance`, `StdDev`, `Skewness` and `ExcessKurtosis` are unchanged by the shift. -/
theorem C20_push_translation (xs : List K) (c : K) (hne : xs ≠ [])
    (hlen : xs.length < 2 ^ 63) (sqrt : K → K) (rpow : K → K → K) :
    (pushAll (xs.map (fun x => x + c))).N = (pushAll xs).N ∧
    (pushAll (xs.map (fun x => x + c))).M2 = (pushAll xs).M2 ∧
    (pushAll (xs.map (fun x => x + c))).M3 = (pushAll xs).M3 ∧
    (pushAll (xs.map (fun x => x + c))).M4 = (pushAll xs).M4 ∧
    (pushAll (xs.map (fun x => x + c))).M1 = (pushAll xs).M1 + fin c ∧
    Variance (pushAll (xs.map (fun x => x + c))) = Variance (pushAll xs) ∧
    StdDev sqrt (pushAll (xs.map (fun x => x + c))) = StdDev sqrt (pushAll xs) ∧
    Skewness sqrt rpow (pushAll (xs.map (fun x => x + c))) = Skewness sqrt rpow (pushAll xs) ∧
    ExcessKurtosis (pushAll (xs.map (fun x => x + c))) = ExcessKurtosis (pushAll xs) := by
  rw [pushAll_closed xs hlen, pushAll_closed _ (by rw [List.length_map]; exact hlen),
    mean_map_add xs c hne, centralSum_map_add, centralSum_map_add, centralSum_map_add,
    List.length_map]
  exact ⟨rfl, rfl, rfl, rfl, rfl, rfl, rfl, rfl, rfl⟩

/-- Witness of C20 at the values 0, 2, 4 shifted by 1, with the accessors over the reals. -/
theorem C20_push_translation_witness :
    ([0, 2, 4] : List ℝ) ≠ [] ∧ ([0, 2, 4] : List ℝ).length < 2 ^ 63 ∧
    ((pushAll (([0, 2, 4] : List ℝ).map (fun x => x + 1))).N = (pushAll ([0, 2, 4] : List ℝ)).N ∧
    (pushAll (([0, 2, 4] : List ℝ).map (fun x => x + 1))).M2 = (pushAll ([0, 2, 4] : List ℝ)).M2 ∧
    (pushAll (([0, 2, 4] : List ℝ).map (fun x => x + 1))).M3 = (pushAll ([0, 2, 4] : List ℝ)).M3 ∧
    (pushAll (([0, 2, 4] : List ℝ).map (fun x => x + 1))).M4 = (pushAll ([0, 2, 4] : List ℝ)).M4 ∧
    (pushAll (([0, 2, 4] : List ℝ).map (fun x => x + 1))).M1
      = (pushAll ([0, 2, 4] : List ℝ)).M1 + fin 1 ∧
    Variance (pushAll (([0, 2, 4] : List ℝ).map (fun x => x + 1)))
      = Variance (pushAll ([0, 2, 4] : List ℝ)) ∧
    StdDev Real.sqrt (pushAll (([0, 2, 4] : List ℝ).map (fun x => x + 1)))
      = StdDev Real.sqrt (pushAll ([0, 2, 4] : List ℝ)) ∧
    Skewness Real.sqrt Real.rpow (pushAll (([0, 2, 4] : List ℝ).map (fun x => x + 1)))
      = Skewness Real.sqrt Real.rpow (pushAll ([0, 2, 4] : List ℝ)) ∧
    ExcessKurtosis (pushAll (([0, 2, 4] : List ℝ).map (fun x => x + 1)))
      = ExcessKurtosis (pushAll ([0, 2, 4] : List ℝ))) :=
  ⟨by simp, by norm_num,
    C20_push_translation [0, 2, 4] 1 (by simp) (by norm_num) Real.sqrt Real.rpow⟩

end RunningVariance
